import Mathlib

/-!
# Share handling of the Hoosat stratum bridge

A shallow embedding of `src/htnstratum/share_handler.go`: the stale check, the
submit validation, `HandleSubmit` and `submit`, the statistics registry and the
little-endian hash conversion `toBig`.

Conventions of the embedding.

* Go `uint64` values are natural numbers below `2^64`; arithmetic that can wrap
  is written with an explicit `% 2^64`.  `atomic.Int64` counters are integers
  and `Add` wraps in two's complement.
* `float64` values are elements of a type `F` with an addition; nothing about
  rounding is assumed.
* Pointers to `WorkStats` are addresses in a heap (a map from addresses to
  objects, with the next free address); the `stats` map of the share handler
  sends keys to such addresses.
* Calls into other packages (the node RPC client, the proof-of-work library, the
  reply helpers of the stratum context, the clock) are inputs of the functions:
  the answer of each such call is a field of `Env`.
-/

namespace HtnBridge

/-! ## Errors, JSON values and blocks -/

/-- Go `error` values that occur in the share handler.  `ErrStaleShare` and
`ErrDupeShare` are the two package-level sentinels; `errorf` stands for a fresh
error made by `fmt.Errorf` or `errors.New`, `wrap` for `errors.Wrap`,
`errors.Wrapf` and `%w`. -/
inductive GoError where
  | ErrStaleShare : GoError
  | ErrDupeShare : GoError
  | errorf (format : String) : GoError
  | wrap (cause : GoError) (message : String) : GoError
  deriving DecidableEq

/-- The chain test `errors.Is(err, target)`. -/
def GoError.is : GoError → GoError → Bool
  | GoError.wrap cause message, target =>
      decide (GoError.wrap cause message = target) || GoError.is cause target
  | err, target => decide (err = target)

/-- A JSON value as it arrives in `event.Params` (Go type `any`). -/
inductive JsonValue where
  | str (s : String) : JsonValue
  | num (n : Int) : JsonValue
  | bool (b : Bool) : JsonValue
  | null : JsonValue
  deriving DecidableEq

/-- Type `gostratum.JsonRpcEvent`. -/
structure JsonRpcEvent where
  Id : JsonValue
  Method : String
  Params : List JsonValue
  deriving DecidableEq

/-- Header of an `appmessage.RPCBlock`; only the blue score is read here. -/
structure RPCBlockHeader where
  BlueScore : Nat
  deriving DecidableEq

/-- Type `appmessage.RPCBlock`: the header and the remaining content, which the
share handler never looks into. -/
structure RPCBlock where
  Header : RPCBlockHeader
  content : Nat
  deriving DecidableEq

/-- Type `externalapi.DomainHash`: 32 bytes. -/
structure DomainHash where
  bytes : List (Fin 256)
  deriving DecidableEq

/-- Type `externalapi.DomainBlock` with its mutable nonce. -/
structure DomainBlock where
  Nonce : Nat
  BlueScore : Nat
  content : Nat
  deriving DecidableEq

/-! ## Statistics -/

/-- Two's complement wrap of an integer into the `int64` range. -/
def wrapInt64 (x : Int) : Int := (x + 2 ^ 63) % 2 ^ 64 - 2 ^ 63

/-- Method `atomic.Int64.Add`. -/
def addInt64 (x d : Int) : Int := wrapInt64 (x + d)

/-- Type `WorkStats`.  Times are natural numbers, `0` being the zero time. -/
structure WorkStats (F : Type) where
  BlocksFound : Int
  SharesFound : Int
  SharesDiff : F
  StaleShares : Int
  InvalidShares : Int
  WorkerName : String
  StartTime : Nat
  LastShare : Nat
  VarDiffStartTime : Nat
  VarDiffSharesFound : Int
  VarDiffWindow : Int
  MinDiff : F
  deriving DecidableEq

/-- The share counters of a worker: blocks found, shares found, sum of share
difficulties, stale shares and invalid shares. -/
def WorkStats.counters {F : Type} (s : WorkStats F) : Int × Int × F × Int × Int :=
  (s.BlocksFound, s.SharesFound, s.SharesDiff, s.StaleShares, s.InvalidShares)

/-- The zero value `WorkStats{}`. -/
def WorkStats.zero (F : Type) [Zero F] : WorkStats F :=
  { BlocksFound := 0, SharesFound := 0, SharesDiff := 0, StaleShares := 0,
    InvalidShares := 0, WorkerName := "", StartTime := 0, LastShare := 0,
    VarDiffStartTime := 0, VarDiffSharesFound := 0, VarDiffWindow := 0, MinDiff := 0 }

/-! ## Mining state, context and the world -/

/-- The stratum difficulty of a connection: the difficulty as a float and the
target as a big integer. -/
structure StratumDiff (F : Type) where
  hashValue : F
  targetValue : Nat
  deriving DecidableEq

/-- Modelled from the spec: the per-connection `MiningState` (its declaration,
`mining_state.go`, is not among the sources): a job cache `job_id -> template`,
the big-job flag and the stratum difficulty. -/
structure MiningState (F : Type) where
  Jobs : List (Int × RPCBlock)
  useBigJob : Bool
  stratumDiff : StratumDiff F
  deriving DecidableEq

/-- Modelled from the spec: `GetJob(job_id) -> option<template>` of the job
cache. -/
def MiningState.GetJob {F : Type} (ms : MiningState F) (id : Int) : Option RPCBlock :=
  ms.Jobs.lookup id

/-- Modelled from the spec: `RemoveJob(job_id)` of the job cache, which drops
the entry of that id and no other. -/
def MiningState.RemoveJob {F : Type} (ms : MiningState F) (id : Int) : MiningState F :=
  { ms with Jobs := ms.Jobs.filter (fun e => decide (e.1 ≠ id)) }

/-- The fields of `gostratum.StratumContext` read by the share handler. -/
structure StratumContext (F : Type) where
  WalletAddr : String
  WorkerName : String
  RemoteAddr : String
  Extranonce : String
  State : MiningState F
  deriving DecidableEq

/-- A reply call made on the stratum context: which helper was called and with
which arguments. -/
inductive Reply where
  | success (id : JsonValue) : Reply
  | badShare (id : JsonValue) : Reply
  | staleShare (id : JsonValue) : Reply
  | dupeShare (id : JsonValue) : Reply
  | lowDiffShare (id : JsonValue) : Reply
  | incorrectPow (id : JsonValue) (recalculated submitted : String) : Reply
  deriving DecidableEq

/-- Modelled from the spec: the error code carried by each reply (the reply
helpers are not among the sources; codes from the table of error replies). -/
def Reply.code : Reply → Option Nat
  | Reply.success _ => none
  | Reply.badShare _ => some 25
  | Reply.staleShare _ => some 21
  | Reply.dupeShare _ => some 22
  | Reply.lowDiffShare _ => some 23
  | Reply.incorrectPow _ _ _ => some 26

/-- The kinds of worker error handed to `RecordWorkerError`. -/
inductive ErrorShortCode where
  | ErrBadDataFromMiner : ErrorShortCode
  | ErrMissingJob : ErrorShortCode
  deriving DecidableEq

/-- A call into the metrics package. -/
inductive Metric where
  | workerError (wallet : String) (kind : ErrorShortCode) : Metric
  | staleShare : Metric
  | dupeShare : Metric
  | weakShare : Metric
  | invalidShare : Metric
  | shareFound : Metric
  | blockFound (nonce bluescore : Nat) : Metric
  | initWorkerCounters : Metric
  deriving DecidableEq

/-- Type `shareHandler`: the `stats` map sends a key to the heap address of its
`WorkStats`. -/
structure ShareHandler (F : Type) where
  stats : List (String × Nat)
  overall : WorkStats F
  tipBlueScore : Nat
  deriving DecidableEq

/-- Everything `HandleSubmit` can read or change: the share handler, the heap of
`WorkStats` objects, the context of the connection, and the calls made so far
to the reply helpers, the metrics package, the node and the logger of the
context (warnings and errors). -/
structure World (F : Type) where
  sh : ShareHandler F
  heap : Nat → WorkStats F
  heapNext : Nat
  ctx : StratumContext F
  replies : List Reply
  metrics : List Metric
  submitted : List (DomainBlock × String)
  logs : List String

/-- Type `submitInfo`. -/
structure SubmitInfo where
  jobId : Int
  block : RPCBlock
  noncestr : String
  nonceVal : Nat
  powHash : DomainHash
  deriving DecidableEq

/-! ## The stale check -/

/-- Constant `workWindow`: the largest accepted distance between the tip blue
score and the blue score of a job. -/
def workWindow : Nat := 8

/-- Subtraction of `uint64` values, which wraps modulo `2^64`. -/
def subUint64 (a b : Nat) : Nat := (a + (2 ^ 64 - b % 2 ^ 64)) % 2 ^ 64

/-- Helper `RecordStaleShare`. -/
def RecordStaleShare {F : Type} (w : World F) : World F :=
  { w with metrics := w.metrics ++ [Metric.staleShare] }

/-- Method `shareHandler.checkStales`. -/
def checkStales {F : Type} (w : World F) (si : SubmitInfo) : World F × Option GoError :=
  let tip := w.sh.tipBlueScore
  if si.block.Header.BlueScore > tip then
    ({ w with sh := { w.sh with tipBlueScore := si.block.Header.BlueScore } }, none)
  else if subUint64 tip si.block.Header.BlueScore > workWindow then
    (RecordStaleShare w, some (GoError.wrap GoError.ErrStaleShare "blueScore %d vs %d"))
  else
    (w, none)

/-! ## Strings and number parsing -/

/-- Go `len(s)` of a string: its length in bytes. -/
def goLen (s : String) : Nat := s.utf8ByteSize

/-- When `old` starts the list `s`, the rest of `s` after it. -/
def stripFront : List Char → List Char → Option (List Char)
  | [], s => some s
  | _ :: _, [] => none
  | a :: old, b :: s => if a = b then stripFront old s else none

/-- Replacing the first occurrence of `old` by `new` in a list of characters. -/
def replaceFirstChars (old new : List Char) : List Char → List Char
  | [] =>
      match stripFront old [] with
      | some rest => new ++ rest
      | none => []
  | c :: s =>
      match stripFront old (c :: s) with
      | some rest => new ++ rest
      | none => c :: replaceFirstChars old new s

/-- Call `strings.Replace(s, old, new, 1)` for a non-empty `old`. -/
def stringsReplace1 (s old new : String) : String :=
  String.mk (replaceFirstChars old.data new.data s.data)

/-- Whether some tail of `s` starts with `sub`. -/
def containsChars (sub : List Char) : List Char → Bool
  | [] => (stripFront sub []).isSome
  | c :: s => (stripFront sub (c :: s)).isSome || containsChars sub s

/-- Call `strings.Contains(s, sub)`. -/
def stringsContains (s sub : String) : Bool := containsChars sub.data s.data

/-- The value of a digit character as `strconv` reads it (letters in either
case count from ten). -/
def digitValue (c : Char) : Option Nat :=
  if '0' ≤ c ∧ c ≤ '9' then some (c.toNat - '0'.toNat)
  else if 'a' ≤ c ∧ c ≤ 'z' then some (c.toNat - 'a'.toNat + 10)
  else if 'A' ≤ c ∧ c ≤ 'Z' then some (c.toNat - 'A'.toNat + 10)
  else none

/-- The digit loop of `strconv.ParseUint`: the value read so far is `acc`; a
character that is no digit of the base is a syntax error. -/
def parseDigits (base : Nat) : Nat → List Char → Option Nat
  | acc, [] => some acc
  | acc, c :: s =>
      match digitValue c with
      | some d => if d < base then parseDigits base (acc * base + d) s else none
      | none => none

/-- Call `strconv.ParseUint(s, 16, 64)`: `none` stands for an error (empty
input, a character that is no hexadecimal digit, or a value of `2^64` or
more). -/
def ParseUintHex64 (s : String) : Option Nat :=
  match s.data with
  | [] => none
  | c :: cs =>
      match parseDigits 16 0 (c :: cs) with
      | some n => if n < 2 ^ 64 then some n else none
      | none => none

/-- Call `strconv.ParseInt(s, 10, 0)` on a 64-bit platform: an optional sign,
then decimal digits, the value within the `int64` range. -/
def ParseIntDec (s : String) : Option Int :=
  match s.data with
  | [] => none
  | c :: cs =>
      let neg := decide (c = '-')
      let digits := if c = '+' ∨ c = '-' then cs else c :: cs
      match digits with
      | [] => none
      | d :: ds =>
          match parseDigits 10 0 (d :: ds) with
          | some n =>
              if neg then (if n ≤ 2 ^ 63 then some (-(n : Int)) else none)
              else (if n < 2 ^ 63 then some (n : Int) else none)
          | none => none

/-- Call `fmt.Sprintf("%0*s", width, s)`: `s` padded on the left with the
character `0` up to `width` characters. -/
def sprintfZeroPad (width : Nat) (s : String) : String :=
  String.mk (List.replicate (width - s.length) '0' ++ s.data)

/-! ## The hash as a big integer -/

/-- One step of the reversal loop: exchange the entries at `i` and `j`. -/
def swapAt (buf : List (Fin 256)) (i j : Nat) : List (Fin 256) :=
  match buf[i]?, buf[j]? with
  | some a, some b => (buf.set i b).set j a
  | _, _ => buf

/-- The loop `for i := 0; i < blen/2; i++` of `toBig`, with `n` iterations
left and the counter at `i`. -/
def reverseLoop (blen : Nat) : Nat → Nat → List (Fin 256) → List (Fin 256)
  | 0, _, buf => buf
  | n + 1, i, buf => reverseLoop blen n (i + 1) (swapAt buf i (blen - 1 - i))

/-- Method `big.Int.SetBytes`: the bytes read as a big-endian number. -/
def SetBytes (buf : List (Fin 256)) : Nat :=
  buf.foldl (fun acc b => acc * 256 + b.val) 0

/-- Function `toBig`: reverse the byte slice of the hash in place, then read it
as a big-endian number. -/
def toBig (hash : DomainHash) : Nat :=
  let buf := hash.bytes
  let blen := buf.length
  SetBytes (reverseLoop blen (blen / 2) 0 buf)

/-! ## The outside of the share handler -/

/-- What the code outside this package answers during one call of
`HandleSubmit`: the hash and proof-of-work library, the node, the reply
helpers of the context and the clock. -/
structure Env where
  /-- Function `externalapi.NewDomainHashFromString`; `none` is an error. -/
  NewDomainHashFromString : String → Option DomainHash
  /-- Method `DomainHash.String`. -/
  hashString : DomainHash → String
  /-- Function `appmessage.RPCBlockToDomainBlock`; `none` is an error. -/
  RPCBlockToDomainBlock : RPCBlock → String → Option DomainBlock
  /-- Method `pow.State.CalculateProofOfWorkValue` on the state of a header. -/
  CalculateProofOfWorkValue : DomainBlock → Nat × DomainHash
  /-- Field `pow.State.Target`: the network target of a header. -/
  Target : DomainBlock → Nat
  /-- Method `RPCClient.SubmitBlock`: `none` when the node accepts the block,
  otherwise the text of the error. -/
  SubmitBlock : DomainBlock → String → Option String
  /-- What a reply helper of the context returns. -/
  replyResult : Reply → Option GoError
  /-- The readings of `time.Now()`, by place of the call. -/
  now : Nat → Nat

/-! ## The statistics registry -/

/-- Lookup in a Go map held as an association list. -/
def mapGet (m : List (String × Nat)) (k : String) : Option Nat := m.lookup k

/-- Builtin `delete(m, k)`. -/
def mapDelete (m : List (String × Nat)) (k : String) : List (String × Nat) :=
  m.filter (fun e => decide (e.1 ≠ k))

/-- Assignment `m[k] = v`. -/
def mapSet (m : List (String × Nat)) (k : String) (v : Nat) : List (String × Nat) :=
  (k, v) :: mapDelete m k

/-- Update through a pointer: apply `f` to the heap object at address `p`. -/
def heapUpdate {α : Type} (heap : Nat → α) (p : Nat) (f : α → α) : Nat → α :=
  fun q => if q = p then f (heap q) else heap q

/-- Method `shareHandler.getCreateStats`: returns the pointer to the stats of
the connection, re-keying or creating the entry when needed. -/
def getCreateStats {F : Type} [Zero F] (env : Env) (w : World F) : World F × Nat :=
  let byWorker : Option Nat :=
    if w.ctx.WorkerName ≠ "" then mapGet w.sh.stats w.ctx.WorkerName else none
  match byWorker with
  | some stats => (w, stats)
  | none =>
      match mapGet w.sh.stats w.ctx.RemoteAddr with
      | some stats =>
          if w.ctx.WorkerName ≠ "" then
            ({ w with
                sh := { w.sh with
                  stats := mapSet (mapDelete w.sh.stats w.ctx.RemoteAddr) w.ctx.WorkerName stats }
                heap := heapUpdate w.heap stats
                  (fun s => { s with WorkerName := w.ctx.WorkerName }) }, stats)
          else (w, stats)
      | none =>
          let stats : WorkStats F :=
            { WorkStats.zero F with
                LastShare := env.now 0, WorkerName := w.ctx.RemoteAddr, StartTime := env.now 1 }
          ({ w with
              sh := { w.sh with stats := mapSet w.sh.stats w.ctx.RemoteAddr w.heapNext }
              heap := heapUpdate w.heap w.heapNext (fun _ => stats)
              heapNext := w.heapNext + 1
              metrics := w.metrics ++ [Metric.initWorkerCounters] }, w.heapNext)

/-! ## Validation of a submit -/

/-- Helper `RecordWorkerError`. -/
def RecordWorkerError {F : Type} (w : World F) (kind : ErrorShortCode) : World F :=
  { w with metrics := w.metrics ++ [Metric.workerError w.ctx.WalletAddr kind] }

/-- The common exit of `validateSubmit` on bad data from the miner. -/
def badData {F : Type} (w : World F) (err : GoError) : World F × Except GoError SubmitInfo :=
  (RecordWorkerError w ErrorShortCode.ErrBadDataFromMiner, Except.error err)

/-- Function `validateSubmit`. -/
def validateSubmit {F : Type} (env : Env) (w : World F) (event : JsonRpcEvent) :
    World F × Except GoError SubmitInfo :=
  if event.Params.length < 4 then
    badData w (GoError.errorf "malformed event, expected at least 4 params")
  else
    match event.Params[1]? with
    | some (JsonValue.str jobIdStr) =>
        match ParseIntDec jobIdStr with
        | none =>
            badData w (GoError.wrap (GoError.errorf "strconv.ParseInt")
              "job id is not parsable as an number")
        | some jobId =>
            match w.ctx.State.GetJob jobId with
            | none =>
                (RecordWorkerError w ErrorShortCode.ErrMissingJob,
                  Except.error (GoError.errorf "job does not exist. stale?"))
            | some block =>
                match event.Params[2]? with
                | some (JsonValue.str noncestr) =>
                    match event.Params[3]? with
                    | some (JsonValue.str powNumStr) =>
                        match env.NewDomainHashFromString (stringsReplace1 powNumStr "0x" "") with
                        | none =>
                            badData w (GoError.wrap (GoError.errorf "NewDomainHashFromString")
                              "unexpected error for param 3: %w")
                        | some powHash =>
                            (w, Except.ok
                              { jobId := jobId, block := block,
                                noncestr := stringsReplace1 noncestr "0x" "",
                                nonceVal := 0, powHash := powHash })
                    | _ => badData w (GoError.errorf "unexpected type for param 3: %+v")
                | _ => badData w (GoError.errorf "unexpected type for param 2: %+v")
    | _ => badData w (GoError.errorf "unexpected type for param 1: %+v")

/-! ## Replies and counters -/

/-- A reply helper of the context (`ReplySuccess`, `ReplyBadShare`,
`ReplyStaleShare`, `ReplyDupeShare`, `ReplyLowDiffShare`, `ReplyIncorrectPow`):
the call is recorded and the helper returns what the context answers. -/
def sendReply {F : Type} (env : Env) (w : World F) (r : Reply) : World F × Option GoError :=
  ({ w with replies := w.replies ++ [r] }, env.replyResult r)

/-- A warning or an error written to `ctx.Logger`. -/
def logLine {F : Type} (w : World F) (line : String) : World F :=
  { w with logs := w.logs ++ [line] }

/-- Statement pair `stats.StaleShares.Add(1); sh.overall.StaleShares.Add(1)`. -/
def addStaleShare {F : Type} (w : World F) (stats : Nat) : World F :=
  { w with
      heap := heapUpdate w.heap stats (fun s => { s with StaleShares := addInt64 s.StaleShares 1 })
      sh := { w.sh with
        overall := { w.sh.overall with StaleShares := addInt64 w.sh.overall.StaleShares 1 } } }

/-- Statement pair `stats.InvalidShares.Add(1); sh.overall.InvalidShares.Add(1)`. -/
def addInvalidShare {F : Type} (w : World F) (stats : Nat) : World F :=
  { w with
      heap := heapUpdate w.heap stats
        (fun s => { s with InvalidShares := addInt64 s.InvalidShares 1 })
      sh := { w.sh with
        overall := { w.sh.overall with InvalidShares := addInt64 w.sh.overall.InvalidShares 1 } } }

/-- Statement pair `stats.BlocksFound.Add(1); sh.overall.BlocksFound.Add(1)`. -/
def addBlockFound {F : Type} (w : World F) (stats : Nat) : World F :=
  { w with
      heap := heapUpdate w.heap stats (fun s => { s with BlocksFound := addInt64 s.BlocksFound 1 })
      sh := { w.sh with
        overall := { w.sh.overall with BlocksFound := addInt64 w.sh.overall.BlocksFound 1 } } }

/-- The tail of `HandleSubmit` that records a share: `SharesFound`, `SharesDiff`
and `LastShare` of the worker, `SharesFound` of the overall stats, and the
metric. -/
def recordShare {F : Type} [Add F] (env : Env) (w : World F) (stats : Nat) : World F :=
  { w with
      heap := heapUpdate w.heap stats (fun s =>
        { s with
            SharesFound := addInt64 s.SharesFound 1
            SharesDiff := s.SharesDiff + w.ctx.State.stratumDiff.hashValue
            LastShare := env.now 2 })
      sh := { w.sh with
        overall := { w.sh.overall with SharesFound := addInt64 w.sh.overall.SharesFound 1 } }
      metrics := w.metrics ++ [Metric.shareFound] }

/-- Call `state.RemoveJob(int(submitInfo.jobId))` on the state of the context. -/
def removeJob {F : Type} (w : World F) (jobId : Int) : World F :=
  { w with ctx := { w.ctx with State := w.ctx.State.RemoveJob jobId } }

/-! ## Submitting a block and handling a submit -/

/-- Method `shareHandler.submit`: hand the block to the node; the returned
error is `none` when the caller is to go on and record the share. -/
def submit {F : Type} [Zero F] (env : Env) (w : World F) (block : DomainBlock)
    (submitInfo : SubmitInfo) (eventId : JsonValue) : World F × Option GoError :=
  let block : DomainBlock := { block with Nonce := submitInfo.nonceVal }
  let powHashStr := env.hashString submitInfo.powHash
  let w := { w with submitted := w.submitted ++ [(block, powHashStr)] }
  match env.SubmitBlock block powHashStr with
  | some errText =>
      let w := removeJob w submitInfo.jobId
      if stringsContains errText "ErrDuplicateBlock" then
        let w := logLine w "block rejected, stale"
        let created := getCreateStats env w
        let w := addStaleShare created.1 created.2
        let w := RecordStaleShare w
        sendReply env w (Reply.staleShare eventId)
      else
        let w := logLine w "block rejected, unknown issue (probably bad pow"
        let created := getCreateStats env w
        let w := addInvalidShare created.1 created.2
        let w := { w with metrics := w.metrics ++ [Metric.invalidShare] }
        sendReply env w (Reply.badShare eventId)
  | none =>
      let created := getCreateStats env w
      let stats := created.2
      let w := removeJob created.1 submitInfo.jobId
      let w := (sendReply env w (Reply.success eventId)).1
      let w := addBlockFound w stats
      let w := { w with metrics := w.metrics ++ [Metric.blockFound block.Nonce block.BlueScore] }
      (w, none)

/-- The extranonce step of `HandleSubmit`: when the context has an extranonce
and the submitted nonce is at most `16 - len(extranonce)` bytes long, the nonce
string becomes the extranonce followed by the zero-padded nonce. -/
def addExtranonce (extranonce : String) (noncestr : String) : String :=
  if extranonce ≠ "" then
    let extranonce2Len : Int := 16 - (goLen extranonce : Int)
    if (goLen noncestr : Int) ≤ extranonce2Len then
      extranonce ++ sprintfZeroPad extranonce2Len.toNat noncestr
    else noncestr
  else noncestr

/-- The part of `HandleSubmit` after the stale check has passed: convert the
block, recompute the proof of work and classify the share.  Here `stats` is the
pointer obtained from `getCreateStats`. -/
def classifyShare {F : Type} [Add F] [Zero F] (env : Env) (w : World F) (event : JsonRpcEvent)
    (soloMining : Bool) (submitInfo : SubmitInfo) (stats : Nat) : World F × Option GoError :=
  match env.RPCBlockToDomainBlock submitInfo.block (env.hashString submitInfo.powHash) with
  | none => (w, some (GoError.errorf "failed to cast block to mutable block: %+v"))
  | some converted =>
      let mutableHeader : DomainBlock := { converted with Nonce := submitInfo.nonceVal }
      let recalculated := env.CalculateProofOfWorkValue mutableHeader
      let recalculatedPowNum := recalculated.1
      let recalculatedPowHash := recalculated.2
      let target := env.Target mutableHeader
      let submittedPowNum := toBig submitInfo.powHash
      if submittedPowNum = recalculatedPowNum then
        if recalculatedPowNum ≤ target then
          let submitted := submit env w converted submitInfo event.Id
          match submitted.2 with
          | some err => (submitted.1, some err)
          | none => (recordShare env submitted.1 stats, none)
        else if recalculatedPowNum ≥ w.ctx.State.stratumDiff.targetValue then
          let w := logLine w (if soloMining then "weak block" else "weak share")
          let w := addInvalidShare w stats
          let w := { w with metrics := w.metrics ++ [Metric.weakShare] }
          sendReply env w (Reply.lowDiffShare event.Id)
        else
          (recordShare env w stats, none)
      else
        let w := addInvalidShare w stats
        sendReply env w
          (Reply.incorrectPow event.Id (env.hashString recalculatedPowHash)
            (env.hashString submitInfo.powHash))

/-- Method `shareHandler.HandleSubmit`.  The returned error is what the Go
method returns (`none` for `nil`). -/
def HandleSubmit {F : Type} [Add F] [Zero F] (env : Env) (w : World F) (event : JsonRpcEvent)
    (soloMining : Bool) : World F × Option GoError :=
  let validated := validateSubmit env w event
  let w := validated.1
  match validated.2 with
  | Except.error _ => sendReply env w (Reply.badShare event.Id)
  | Except.ok submitInfo =>
      let submitInfo : SubmitInfo :=
        { submitInfo with noncestr := addExtranonce w.ctx.Extranonce submitInfo.noncestr }
      -- both branches on `state.useBigJob` parse the nonce the same way
      match (if w.ctx.State.useBigJob then ParseUintHex64 submitInfo.noncestr
             else ParseUintHex64 submitInfo.noncestr) with
      | none =>
          (RecordWorkerError w ErrorShortCode.ErrBadDataFromMiner,
            some (GoError.wrap (GoError.errorf "strconv.ParseUint") "failed parsing noncestr"))
      | some nonceVal =>
          let submitInfo : SubmitInfo := { submitInfo with nonceVal := nonceVal }
          let created := getCreateStats env w
          let stats := created.2
          let checked := checkStales created.1 submitInfo
          match checked.2 with
          | some err =>
              let w := removeJob checked.1 submitInfo.jobId
              if err = GoError.ErrDupeShare then
                let w := { w with metrics := w.metrics ++ [Metric.dupeShare] }
                let w := addInvalidShare w stats
                sendReply env w (Reply.dupeShare event.Id)
              else if err.is GoError.ErrStaleShare then
                let w := addStaleShare w stats
                let w := RecordStaleShare w
                sendReply env w (Reply.staleShare event.Id)
              else
                let w := logLine w "unknown error during check stales"
                sendReply env w (Reply.badShare event.Id)
          | none => classifyShare env checked.1 event soloMining submitInfo stats

/-- A sequence of submits on one connection, each with its own answers of the
outside; the returned list holds the error returned by each call. -/
def handleSubmits {F : Type} [Add F] [Zero F] (soloMining : Bool) :
    World F → List (Env × JsonRpcEvent) → World F × List (Option GoError)
  | w, [] => (w, [])
  | w, (env, event) :: rest =>
      let r := HandleSubmit env w event soloMining
      let rs := handleSubmits soloMining r.1 rest
      (rs.1, r.2 :: rs.2)

/-! ## Reading the hash as a little-endian number -/

/-- The bytes of a list read as a little-endian number: the first byte is the
least significant one. -/
def leValue : List (Fin 256) → Nat
  | [] => 0
  | b :: bs => b.val + 256 * leValue bs

/-! ## A small concrete instance

A connection of worker `w1` with one cached job, and a toy proof of work whose
value is the nonce itself, used to evaluate the functions on concrete
inputs. -/

/-- The hexadecimal digit of a value below sixteen. -/
def hexDigit (n : Nat) : Char := "0123456789abcdef".data.getD n '0'

/-- Hexadecimal text of a list of bytes, two digits per byte. -/
def hexOfBytes : List (Fin 256) → List Char
  | [] => []
  | b :: bs => hexDigit (b.val / 16) :: hexDigit (b.val % 16) :: hexOfBytes bs

/-- Bytes of a hexadecimal text, two digits per byte. -/
def bytesOfHex : List Char → Option (List (Fin 256))
  | [] => some []
  | [_] => none
  | c :: d :: rest =>
      match parseDigits 16 0 [c, d], bytesOfHex rest with
      | some n, some bs => some (Fin.ofNat n :: bs)
      | _, _ => none

/-- The first `len` bytes of a number in little-endian order. -/
def leBytes : Nat → Nat → List (Fin 256)
  | 0, _ => []
  | len + 1, n => Fin.ofNat n :: leBytes len (n / 256)

/-- The toy outside: hashes are written in hexadecimal, every block converts,
the proof-of-work value of a header is its nonce, the network target is `3`,
the node answers `node` and every reply is delivered. -/
def demoEnv (node : Option String) : Env :=
  { NewDomainHashFromString := fun s =>
      if s.length = 64 then (bytesOfHex s.data).map DomainHash.mk else none
    hashString := fun h => String.mk (hexOfBytes h.bytes)
    RPCBlockToDomainBlock := fun b _ => some { Nonce := 0, BlueScore := b.Header.BlueScore, content := b.content }
    CalculateProofOfWorkValue := fun b => (b.Nonce, DomainHash.mk (leBytes 32 b.Nonce))
    Target := fun _ => 3
    SubmitBlock := fun _ _ => node
    replyResult := fun _ => none
    now := fun _ => 1700000000 }

/-- The toy world: worker `w1` has a stats entry with all counters zero, the
job cache holds job `1` at blue score `100`, the tip is `100` and the stratum
target is `10`. -/
def demoWorld : World Int :=
  { sh := { stats := [("w1", 0)], overall := WorkStats.zero Int, tipBlueScore := 100 }
    heap := fun _ => { WorkStats.zero Int with WorkerName := "w1" }
    heapNext := 1
    ctx :=
      { WalletAddr := "hoosat:qq", WorkerName := "w1", RemoteAddr := "10.0.0.1:4000",
        Extranonce := "",
        State :=
          { Jobs := [(1, { Header := { BlueScore := 100 }, content := 7 })],
            useBigJob := false
            stratumDiff := { hashValue := 4, targetValue := 10 } } }
    replies := []
    metrics := []
    submitted := []
    logs := [] }

/-- A `mining.submit` event of worker `w1` with request id `1`. -/
def demoEvent (jobId nonce powHash : String) : JsonRpcEvent :=
  { Id := JsonValue.num 1
    Method := "mining.submit"
    Params := [JsonValue.str "w1", JsonValue.str jobId, JsonValue.str nonce, JsonValue.str powHash] }

/-- The claimed hash whose little-endian value is `5`. -/
def demoHash5 : String := "0500000000000000000000000000000000000000000000000000000000000000"

/-- The claimed hash whose little-endian value is `10`. -/
def demoHash10 : String := "0a00000000000000000000000000000000000000000000000000000000000000"

/-- The claimed hash whose little-endian value is `2`. -/
def demoHash2 : String := "0200000000000000000000000000000000000000000000000000000000000000"

/-- A validated submit for the cached job of the toy world, with the blue score
of the job set to `blueScore`. -/
def demoInfo (blueScore : Nat) : SubmitInfo :=
  { jobId := 1
    block := { Header := { BlueScore := blueScore }, content := 7 }
    noncestr := "5"
    nonceVal := 5
    powHash := DomainHash.mk (leBytes 32 5) }

/-! ## Hexadecimal strings -/

/-- Whether a character is a hexadecimal digit (of either case). -/
def isHexChar (c : Char) : Bool :=
  match digitValue c with
  | some d => decide (d < 16)
  | none => false

/-- Whether a string consists of hexadecimal digits only. -/
def isHexString (s : String) : Bool := s.data.all isHexChar

/-- The value of a list of hexadecimal digits read as a base-16 number, most
significant digit first. -/
def hexValueChars (cs : List Char) : Nat :=
  cs.foldl (fun acc c => acc * 16 + (digitValue c).getD 0) 0

/-- The value of a hexadecimal string; the empty string has value `0`. -/
def hexValue (s : String) : Nat := hexValueChars s.data


/-! ## Wallet normalisation (`gostratum.CleanWallet`)

A Go string is a sequence of bytes; here it is a list of natural numbers. -/

/-- The bytes of an ASCII string literal. -/
def asciiBytes (s : String) : List Nat := s.data.map Char.toNat

/-- The two networks whose address marker `util.DecodeAddress` can be asked to
check: `util.Bech32PrefixHoosat` and `util.Bech32PrefixHoosatTest`. -/
inductive AddressNet where
  | hoosat : AddressNet
  | hoosattest : AddressNet
  deriving DecidableEq

/-- Call `strings.HasPrefix(s, p)`. -/
def startsWith : List Nat → List Nat → Bool
  | _, [] => true
  | [], _ :: _ => false
  | a :: s, b :: p => decide (a = b) && startsWith s p

/-- The character class `[a-z0-9]` of the wallet pattern. -/
def isLowerAlnum (b : Nat) : Bool :=
  (decide (97 ≤ b) && decide (b ≤ 122)) || (decide (48 ≤ b) && decide (b ≤ 57))

/-- Whether `s` starts with `marker` followed by a byte of `[a-z0-9]`. -/
def markerThenAlnum (marker : List Nat) : List Nat → Bool
  | s =>
    startsWith s marker &&
      (match s.drop marker.length with
       | [] => false
       | b :: _ => isLowerAlnum b)

/-- Whether the pattern `(hoosat|hoosattest):[a-z0-9]+` matches at the start of
`s`. -/
def walletRegexAt (s : List Nat) : Bool :=
  markerThenAlnum (asciiBytes "hoosat:") s || markerThenAlnum (asciiBytes "hoosattest:") s

/-- Call `walletRegex.MatchString(s)` for the pattern
`(hoosat|hoosattest):[a-z0-9]+`: the pattern is not anchored, so it matches when
it matches at the start of some tail of `s`. -/
def walletRegexMatch : List Nat → Bool
  | [] => false
  | b :: s => walletRegexAt (b :: s) || walletRegexMatch s

/-- The error returned by `CleanWallet`. -/
def errCoerceWallet : GoError :=
  GoError.errorf "unable to coerce wallet to valid hoosat or hoosattest address"

/-- Function `CleanWallet` with a bound on the depth of its recursion;
`none` means the bound was reached.  `DecodeAddress in net` tells whether
`util.DecodeAddress(in, net)` returns no error. -/
def CleanWalletFuel (DecodeAddress : List Nat → AddressNet → Bool) :
    Nat → List Nat → Option (Except GoError (List Nat))
  | 0, _ => none
  | fuel + 1, input =>
      if DecodeAddress input AddressNet.hoosat then some (Except.ok input)
      else if DecodeAddress input AddressNet.hoosattest then some (Except.ok input)
      else if !startsWith input (asciiBytes "hoosat:") &&
          !startsWith input (asciiBytes "hoosattest:") then
        CleanWalletFuel DecodeAddress fuel (asciiBytes "hoosat:" ++ input)
      else if walletRegexMatch input then
        if input.length ≥ 61 then some (Except.ok (input.take 61))
        else some (Except.error errCoerceWallet)
      else some (Except.error errCoerceWallet)

/-- Function `CleanWallet`: two levels of recursion are all it ever uses. -/
def CleanWallet (DecodeAddress : List Nat → AddressNet → Bool) (input : List Nat) :
    Option (Except GoError (List Nat)) :=
  CleanWalletFuel DecodeAddress 2 input

/-- Whether an address text decodes as a valid address of either network. -/
def decodesEither (DecodeAddress : List Nat → AddressNet → Bool) (s : List Nat) : Bool :=
  DecodeAddress s AddressNet.hoosat || DecodeAddress s AddressNet.hoosattest

/-- The text that `CleanWallet` judges, in the words of its description: the
input itself when it decodes or already starts with `hoosat:` or
`hoosattest:`, and `hoosat:` followed by the input otherwise. -/
def walletCandidate (DecodeAddress : List Nat → AddressNet → Bool) (x : List Nat) : List Nat :=
  if decodesEither DecodeAddress x || startsWith x (asciiBytes "hoosat:") ||
      startsWith x (asciiBytes "hoosattest:") then x
  else asciiBytes "hoosat:" ++ x

/-- The result of `CleanWallet` in the words of its description: the candidate
verbatim when it decodes, its first 61 bytes when it matches the pattern and is
at least 61 bytes long, and an error otherwise. -/
def cleanWalletSpec (DecodeAddress : List Nat → AddressNet → Bool) (x : List Nat) :
    Except GoError (List Nat) :=
  if decodesEither DecodeAddress (walletCandidate DecodeAddress x) then
    Except.ok (walletCandidate DecodeAddress x)
  else if walletRegexMatch (walletCandidate DecodeAddress x) &&
      decide (61 ≤ (walletCandidate DecodeAddress x).length) then
    Except.ok ((walletCandidate DecodeAddress x).take 61)
  else Except.error errCoerceWallet

/-! ## Floating-point operations

The difficulty controller and the hashrate formatter compute with `float64`.
Their embedding takes the operations on `float64` as an argument, so that the
control flow is the one of the source and nothing is assumed about rounding. -/

/-- The `float64` operations used by the share handler.  The comparison `x >= y`
of the source is `le y x`. -/
structure FloatOps (F : Type) where
  /-- Operator `+`. -/
  add : F → F → F
  /-- Operator `-`. -/
  sub : F → F → F
  /-- Operator `*`. -/
  mul : F → F → F
  /-- Operator `/`. -/
  div : F → F → F
  /-- Function `math.Abs`. -/
  abs : F → F
  /-- Function `math.Max`. -/
  max : F → F → F
  /-- Comparison `<=`. -/
  le : F → F → Bool
  /-- Comparison `<`. -/
  lt : F → F → Bool
  /-- Conversion `float64(n)` of an integer. -/
  ofInt : Int → F
  /-- The constant written as the decimal literal of value `num / den`. -/
  lit : Nat → Nat → F
  /-- Call `fmt.Sprintf("%0.2f", x)`. -/
  format2 : F → String

/-! ## The difficulty controller -/

/-- Table `windows` of `startVardiffThread`: the length of each stage in
minutes, `0` for the last, unbounded stage. -/
def windows : List Nat := [1, 3, 10, 30, 60, 240, 0]

/-- Table `tolerances` of `startVardiffThread`: `1, 0.5, 0.25, 0.15, 0.1, 0.05,
0.05`. -/
def tolerances {F : Type} (ops : FloatOps F) : List F :=
  [ops.lit 1 1, ops.lit 5 10, ops.lit 25 100, ops.lit 15 100, ops.lit 1 10, ops.lit 5 100,
    ops.lit 5 100]

/-- Function `updateVarDiff`: store the new minimum difficulty, zero the start
time of the tracker and its stage; returns the changed stats and the previous
minimum difficulty. -/
def updateVarDiff {F : Type} (stats : WorkStats F) (minDiff : F) : WorkStats F × F :=
  ({ stats with VarDiffStartTime := 0, VarDiffWindow := 0, MinDiff := minDiff }, stats.MinDiff)

/-- Function `startVarDiff`: (re)start the tracker when it is disabled; `now` is
the reading of `time.Now()`. -/
def startVarDiff {F : Type} (now : Nat) (stats : WorkStats F) : WorkStats F :=
  if stats.VarDiffStartTime = 0 then
    { stats with VarDiffSharesFound := 0, VarDiffStartTime := now }
  else stats

/-- Method `shareHandler.startClientVardiff`. -/
def startClientVardiff {F : Type} [Zero F] (env : Env) (w : World F) : World F :=
  let created := getCreateStats env w
  { created.1 with heap := heapUpdate created.1.heap created.2 (startVarDiff (env.now 3)) }

/-- Method `shareHandler.getClientVardiff`. -/
def getClientVardiff {F : Type} [Zero F] (env : Env) (w : World F) : World F × F :=
  let created := getCreateStats env w
  (created.1, (created.1.heap created.2).MinDiff)

/-- Method `shareHandler.setClientVardiff`: the new minimum difficulty is
`math.Max(minDiff, 0.00001)`; returns the previous one. -/
def setClientVardiff {F : Type} [Zero F] (ops : FloatOps F) (env : Env) (w : World F)
    (minDiff : F) : World F × F :=
  let created := getCreateStats env w
  let updated := updateVarDiff (created.1.heap created.2) (ops.max minDiff (ops.lit 1 100000))
  ({ created.1 with
      heap := heapUpdate created.1.heap created.2 (fun _ => startVarDiff (env.now 3) updated.1) },
    updated.2)

/-- The loop `for i < v.VarDiffWindow` of the controller, over the tolerances of
the stages cleared before: `n` iterations are left and the counter is at `i`.
Returns the final counter and whether the loop was left by `break`. -/
def clearedLoop {F : Type} (ops : FloatOps F) (shareRateRatio : F) : Nat → Nat → Nat × Bool
  | 0, i => (i, false)
  | n + 1, i =>
      match (tolerances ops)[i]? with
      | some tol =>
          if ops.le tol (ops.abs (ops.sub (ops.lit 1 1) shareRateRatio)) then (i, true)
          else clearedLoop ops shareRateRatio n (i + 1)
      | none => (i, false)

/-- The body of the loop over the workers in `startVardiffThread`, for one
worker: `expectedShareRate` is the configured rate (a `uint`), `minutesSince t`
is `time.Since(t).Minutes()`.  The result is `none` when an index into
`windows` is out of range. -/
def vardiffWorker {F : Type} (ops : FloatOps F) (expectedShareRate : Nat)
    (minutesSince : Nat → F) (v : WorkStats F) : Option (WorkStats F) :=
  if v.VarDiffStartTime = 0 then some v
  else
    let diff := v.MinDiff
    let shares := v.VarDiffSharesFound
    let duration := minutesSince v.VarDiffStartTime
    let shareRate := ops.div (ops.ofInt shares) duration
    let shareRateRatio := ops.div shareRate (ops.ofInt expectedShareRate)
    if v.VarDiffWindow < 0 then none
    else
      match windows[v.VarDiffWindow.toNat]?, (tolerances ops)[v.VarDiffWindow.toNat]? with
      | some window, some tolerance =>
          if window = 0 then
            if ops.le tolerance (ops.abs (ops.sub (ops.lit 1 1) shareRateRatio)) then
              some (updateVarDiff v (ops.mul diff shareRateRatio)).1
            else some v
          else
            let loop := clearedLoop ops shareRateRatio (v.VarDiffWindow.toNat - 1) 1
            let v1 := if loop.2 then (updateVarDiff v (ops.mul diff shareRateRatio)).1 else v
            if (loop.1 : Int) < v1.VarDiffWindow then some v1
            else
              let bound : F := ops.ofInt (((window * expectedShareRate) % 2 ^ 64 : Nat) : Int)
              if ops.le (ops.mul bound (ops.add (ops.lit 1 1) tolerance)) (ops.ofInt shares) then
                some (updateVarDiff v1 (ops.mul diff shareRateRatio)).1
              else if ops.le (ops.ofInt window) duration then
                if ops.le (ops.ofInt shares)
                    (ops.mul bound (ops.sub (ops.lit 1 1) tolerance)) then
                  some (updateVarDiff v1
                    (ops.mul diff (ops.max shareRateRatio (ops.lit 1 10)))).1
                else some { v1 with VarDiffWindow := addInt64 v1.VarDiffWindow 1 }
              else some v1
      | _, _ => none

/-- One pass of the loop `for _, v := range sh.stats` of `startVardiffThread`
over the entries of the stats map, after the sleep; `none` when the body fails
for some worker. -/
def vardiffPassOver {F : Type} (ops : FloatOps F) (expectedShareRate : Nat)
    (minutesSince : Nat → F) : List (String × Nat) → World F → Option (World F)
  | [], w => some w
  | e :: rest, w =>
      match vardiffWorker ops expectedShareRate minutesSince (w.heap e.2) with
      | some v =>
          vardiffPassOver ops expectedShareRate minutesSince rest
            { w with heap := heapUpdate w.heap e.2 (fun _ => v) }
      | none => none

/-- One controller pass of `startVardiffThread` on the world. -/
def vardiffPass {F : Type} (ops : FloatOps F) (expectedShareRate : Nat)
    (minutesSince : Nat → F) (w : World F) : Option (World F) :=
  vardiffPassOver ops expectedShareRate minutesSince w.sh.stats w

/-! ## Exact arithmetic as an instance of the floating-point operations

Rational numbers in lowest terms with the two infinities and a not-a-number
value: the arithmetic of `float64` without rounding.  It is used to evaluate the
functions on inputs where every `float64` operation is exact, or where the
rounding is far from deciding a comparison. -/

/-- A number `num / den` in lowest terms (`den > 0`), an infinity or
not-a-number. -/
inductive ExactFloat where
  | fin (num : Int) (den : Nat) : ExactFloat
  | posInf : ExactFloat
  | negInf : ExactFloat
  | nan : ExactFloat
  deriving DecidableEq

namespace ExactFloat

/-- The fraction `n / d` in lowest terms; not-a-number when `d = 0`. -/
def ofFrac (n : Int) (d : Nat) : ExactFloat :=
  if d = 0 then nan
  else fin (n / (Nat.gcd n.natAbs d : Int)) (d / Nat.gcd n.natAbs d)

/-- The infinity of the sign of `n`, not-a-number for `n = 0`. -/
def infOfSign (n : Int) : ExactFloat :=
  if 0 < n then posInf else if n < 0 then negInf else nan

/-- Negation. -/
def neg : ExactFloat → ExactFloat
  | fin n d => fin (-n) d
  | posInf => negInf
  | negInf => posInf
  | nan => nan

/-- Addition. -/
def add : ExactFloat → ExactFloat → ExactFloat
  | fin a b, fin c d => ofFrac (a * d + c * b) (b * d)
  | fin _ _, posInf => posInf
  | fin _ _, negInf => negInf
  | posInf, fin _ _ => posInf
  | negInf, fin _ _ => negInf
  | posInf, posInf => posInf
  | negInf, negInf => negInf
  | _, _ => nan

/-- Subtraction. -/
def sub (x y : ExactFloat) : ExactFloat := add x (neg y)

/-- Multiplication. -/
def mul : ExactFloat → ExactFloat → ExactFloat
  | fin a b, fin c d => ofFrac (a * c) (b * d)
  | fin a _, posInf => infOfSign a
  | fin a _, negInf => infOfSign (-a)
  | posInf, fin c _ => infOfSign c
  | negInf, fin c _ => infOfSign (-c)
  | posInf, posInf => posInf
  | negInf, negInf => posInf
  | posInf, negInf => negInf
  | negInf, posInf => negInf
  | _, _ => nan

/-- Division; a non-zero number divided by zero is an infinity. -/
def div : ExactFloat → ExactFloat → ExactFloat
  | fin a b, fin c d =>
      if c = 0 then infOfSign a
      else if 0 < c then ofFrac (a * d) (b * c.natAbs)
      else ofFrac (-(a * d)) (b * c.natAbs)
  | fin _ _, posInf => fin 0 1
  | fin _ _, negInf => fin 0 1
  | posInf, fin c _ => if 0 ≤ c then posInf else negInf
  | negInf, fin c _ => if 0 ≤ c then negInf else posInf
  | _, _ => nan

/-- Absolute value. -/
def abs : ExactFloat → ExactFloat
  | fin n d => fin (n.natAbs : Int) d
  | posInf => posInf
  | negInf => posInf
  | nan => nan

/-- Comparison `<=`, false as soon as an argument is not-a-number. -/
def le : ExactFloat → ExactFloat → Bool
  | fin a b, fin c d => decide (a * d ≤ c * b)
  | nan, _ => false
  | _, nan => false
  | negInf, _ => true
  | _, posInf => true
  | _, _ => false

/-- Comparison `<`, false as soon as an argument is not-a-number. -/
def lt : ExactFloat → ExactFloat → Bool
  | fin a b, fin c d => decide (a * d < c * b)
  | nan, _ => false
  | _, nan => false
  | posInf, _ => false
  | _, negInf => false
  | negInf, _ => true
  | _, posInf => true

/-- Function `math.Max`: not-a-number as soon as an argument is. -/
def max (x y : ExactFloat) : ExactFloat :=
  match x, y with
  | nan, _ => nan
  | _, nan => nan
  | x, y => if le x y then y else x

/-- The digits of `n` in base ten, at least `width` of them. -/
def decimalDigits : Nat → Nat → List Char
  | 0, _ => []
  | width + 1, n => decimalDigits width (n / 10) ++ [Char.ofNat (48 + n % 10)]

/-- A number with two decimals, rounded to the nearest hundredth and to the even
one on a tie; the integer part is written with up to forty digits. -/
def format2 : ExactFloat → String
  | fin n d =>
      let floor := n.natAbs * 100 / d
      let twice := 2 * (n.natAbs * 100 % d)
      let hundredths :=
        if d < twice ∨ (twice = d ∧ floor % 2 = 1) then floor + 1 else floor
      let whole := (decimalDigits 40 (hundredths / 100)).dropWhile (fun c => c == '0')
      String.mk ((if n < 0 then ['-'] else []) ++ (if whole = [] then ['0'] else whole) ++
        ['.'] ++ decimalDigits 2 (hundredths % 100))
  | posInf => "+Inf"
  | negInf => "-Inf"
  | nan => "NaN"

end ExactFloat

instance : Zero ExactFloat := ⟨ExactFloat.fin 0 1⟩

instance : Add ExactFloat := ⟨ExactFloat.add⟩

/-- The exact arithmetic as floating-point operations. -/
def exactOps : FloatOps ExactFloat :=
  { add := ExactFloat.add
    sub := ExactFloat.sub
    mul := ExactFloat.mul
    div := ExactFloat.div
    abs := ExactFloat.abs
    max := ExactFloat.max
    le := ExactFloat.le
    lt := ExactFloat.lt
    ofInt := fun n => ExactFloat.fin n 1
    lit := fun n d => ExactFloat.ofFrac (n : Int) d
    format2 := ExactFloat.format2 }

/-- Elapsed minutes for a clock that counts seconds and stands at `now`. -/
def demoMinutesSince (now : Nat) : Nat → ExactFloat :=
  fun start => ExactFloat.ofFrac ((now : Int) - (start : Int)) 60

/-- A worker with an active tracker (started at second `1000`). -/
def demoTracker (stage shares : Int) (minDiff : ExactFloat) : WorkStats ExactFloat :=
  { WorkStats.zero ExactFloat with
      WorkerName := "w1", VarDiffStartTime := 1000, VarDiffSharesFound := shares,
      VarDiffWindow := stage, MinDiff := minDiff }

/-- A world of one connection whose worker `w1` has the stats `v` at heap
address `0`. -/
def demoVarWorld (v : WorkStats ExactFloat) : World ExactFloat :=
  { sh := { stats := [("w1", 0)], overall := WorkStats.zero ExactFloat, tipBlueScore := 100 }
    heap := fun _ => v
    heapNext := 1
    ctx :=
      { WalletAddr := "hoosat:qq", WorkerName := "w1", RemoteAddr := "10.0.0.1:4000",
        Extranonce := "",
        State :=
          { Jobs := [(1, { Header := { BlueScore := 100 }, content := 7 })],
            useBigJob := false
            stratumDiff := { hashValue := ExactFloat.fin 4 1, targetValue := 10 } } }
    replies := []
    metrics := []
    submitted := []
    logs := [] }

/-- The share rate ratio that the controller computes for a worker:
`(shares / elapsed_minutes) / expectedShareRate`. -/
def shareRateRatio {F : Type} (ops : FloatOps F) (expectedShareRate : Nat)
    (minutesSince : Nat → F) (v : WorkStats F) : F :=
  ops.div (ops.div (ops.ofInt v.VarDiffSharesFound) (minutesSince v.VarDiffStartTime))
    (ops.ofInt expectedShareRate)

/-- The upper bound on the shares of a stage as the controller computes it:
`float64(window * expectedShareRate) * (1 + tolerance)`, the product of the two
`uint` values wrapping modulo `2^64`. -/
def upperBound {F : Type} (ops : FloatOps F) (expectedShareRate window : Nat) (tolerance : F) : F :=
  ops.mul (ops.ofInt (((window * expectedShareRate) % 2 ^ 64 : Nat) : Int))
    (ops.add (ops.lit 1 1) tolerance)


/-! ## The ban list -/

/-- Type `BanInfo`. -/
structure BanInfo where
  Address : String
  Times : Int
  deriving DecidableEq

/-- Function `AddressBanned` on the ban list `bans`: the first entry for the
address decides. -/
def AddressBanned : List BanInfo → String → Bool
  | [], _ => false
  | ban :: rest, address =>
      if ban.Address = address then
        (if ban.Times > 10 then true else false)
      else AddressBanned rest address

/-- Function `TryToBan`: the new value of the ban list `bans`.  The first entry
for the address gets `Times++` (an `int`, which wraps); without such an entry
one with `Times = 1` is appended. -/
def TryToBan : List BanInfo → String → List BanInfo
  | [], address => [{ Address := address, Times := 1 }]
  | ban :: rest, address =>
      if ban.Address = address then { ban with Times := addInt64 ban.Times 1 } :: rest
      else ban :: TryToBan rest address

/-- The ban list after a sequence of `TryToBan` calls from the empty list. -/
def tryToBanAll (calls : List String) : List BanInfo := calls.foldl TryToBan []

/-- The `Times` of the first entry for an address, if there is one. -/
def banTimes : List BanInfo → String → Option Int
  | [], _ => none
  | ban :: rest, address => if ban.Address = address then some ban.Times else banTimes rest address

/-! ## Formatting a hashrate -/

/-- Table `unitStrings` of `stringifyHashrate`. -/
def unitStrings : List String := ["", "K", "M", "G", "T", "P", "E", "Z", "Y"]

/-- The loop `for i, u := range unitStrings[4:]` of `stringifyHashrate` over the
remaining pairs of index and unit, from the current values of `hr` and
`unit`. -/
def hashrateLoop {F : Type} (ops : FloatOps F) (ghs : F) : List (Nat × String) → F × String →
    F × String
  | [], current => current
  | (i, u) :: rest, current =>
      let hr := ops.div ghs (ops.mul (ops.ofInt (i : Int)) (ops.lit 1000 1))
      if ops.lt hr (ops.lit 1000 1) then (hr, current.2)
      else hashrateLoop ops ghs rest (hr, u)

/-- The mantissa `hr` and the unit chosen by `stringifyHashrate` for a rate in
GH/s. -/
def hashrateParts {F : Type} (ops : FloatOps F) (ghs : F) : F × String :=
  if ops.lt (ops.mul ghs (ops.lit 1000000 1)) (ops.lit 1 1) then
    (ops.mul (ops.mul (ops.mul ghs (ops.lit 1000 1)) (ops.lit 1000 1)) (ops.lit 1000 1),
      unitStrings.getD 0 "")
  else if ops.lt (ops.mul ghs (ops.lit 1000 1)) (ops.lit 1 1) then
    (ops.mul (ops.mul ghs (ops.lit 1000 1)) (ops.lit 1000 1), unitStrings.getD 1 "")
  else if ops.lt ghs (ops.lit 1 1) then
    (ops.mul ghs (ops.lit 1000 1), unitStrings.getD 2 "")
  else if ops.lt ghs (ops.lit 1000 1) then
    (ghs, unitStrings.getD 3 "")
  else
    hashrateLoop ops ghs (unitStrings.drop 4).enum (ops.lit 0 1, "")

/-- Function `stringifyHashrate`: the mantissa with two decimals and a comma,
the unit and `H/s`. -/
def stringifyHashrate {F : Type} (ops : FloatOps F) (ghs : F) : String :=
  stringsReplace1 (ops.format2 (hashrateParts ops ghs).1) "." "," ++
    (hashrateParts ops ghs).2 ++ "H/s"


/-! ## The rewards endpoint (`miner_rewards.go`) -/

/-- The functions of the Go package `unicode` used through `strings.TrimSpace`,
`strings.ToLower` and the worker sanitiser; they are tables of the standard
library and are taken as given. -/
structure UnicodeOps where
  /-- Function `unicode.IsSpace`. -/
  IsSpace : Char → Bool
  /-- Function `unicode.IsLetter`. -/
  IsLetter : Char → Bool
  /-- Function `unicode.IsDigit`. -/
  IsDigit : Char → Bool
  /-- Function `unicode.ToLower`. -/
  ToLower : Char → Char

/-- Call `strings.TrimSpace(s)`. -/
def stringsTrimSpace (u : UnicodeOps) (s : String) : String :=
  String.mk ((s.data.dropWhile u.IsSpace).reverse.dropWhile u.IsSpace).reverse

/-- Call `strings.ToLower(s)`. -/
def stringsToLower (u : UnicodeOps) (s : String) : String :=
  String.mk (s.data.map u.ToLower)

/-- Call `strings.ReplaceAll(s, " ", "_")`. -/
def replaceSpaces (s : String) : String :=
  String.mk (s.data.map (fun c => if c = ' ' then '_' else c))

/-- Type `*appmessage.RPCTransactionOutput`, with the address of its verbose
data (`none` when `VerboseData` is nil). -/
structure RPCTransactionOutput where
  Amount : Nat
  ScriptPublicKeyAddress : Option String
  deriving DecidableEq

/-- Type `*appmessage.RPCTransaction`: outputs (a nil pointer is `none`) and
payload. -/
structure RPCTransaction where
  Outputs : List (Option RPCTransactionOutput)
  Payload : String
  deriving DecidableEq

/-- Type `*appmessage.RPCBlockVerboseData`, the fields read by the endpoint. -/
structure RPCBlockVerboseData where
  IsChainBlock : Bool
  MergeSetBluesHashes : List String
  BlueScore : Nat
  Hash : String
  deriving DecidableEq

/-- Type `appmessage.RPCBlock` as the rewards endpoint reads it: the timestamp
of the header (`none` for a nil header), the transactions and the verbose
data. -/
structure RewardsBlock where
  HeaderTimestamp : Option Int
  Transactions : List (Option RPCTransaction)
  VerboseData : Option RPCBlockVerboseData
  deriving DecidableEq

/-- Type `*appmessage.GetBlockResponseMessage`. -/
structure GetBlockResponseMessage where
  Block : Option RewardsBlock
  deriving DecidableEq

/-- Type `RewardsRow`. -/
structure RewardsRow where
  MinedBlueHash : String
  Worker : String
  RewardAtoms : Nat
  PaidByBlockHash : String
  PaidBlueScore : Nat
  PaidAtMS : Int
  deriving DecidableEq

/-- Type `minedBlue`. -/
structure MinedBlue where
  Hash : String
  Worker : String
  deriving DecidableEq

/-- What the rewards endpoint takes from outside: the node call
`api.hoosat.GetBlock(h, true)` (`none` for an error or a nil answer), the
`unicode` tables, and `extractWorkerFromPayload`, whose search of the payload
with a regular expression is not part of the embedding. -/
structure RewardsEnv where
  GetBlock : String → Option GetBlockResponseMessage
  unicode : UnicodeOps
  extractWorkerFromPayload : RewardsBlock → String

/-- Function `stripHRPRewards`: drop a leading `hoosat:` or `hoosattest:`. -/
def stripHRPRewards (input : String) : String :=
  match stripFront "hoosat:".data input.data with
  | some rest => String.mk rest
  | none =>
      match stripFront "hoosattest:".data input.data with
      | some rest => String.mk rest
      | none => input

/-- The loop over the coinbase outputs in `coinbaseSumToAddress`, from the
current values of `matched` and `sum`; the sum is a `uint64`. -/
def sumOutputs (u : UnicodeOps) (addr : String) :
    List (Option RPCTransactionOutput) → Bool × Nat → Bool × Nat
  | [], state => state
  | none :: rest, state => sumOutputs u addr rest state
  | some o :: rest, state =>
      match o.ScriptPublicKeyAddress with
      | none => sumOutputs u addr rest state
      | some address =>
          if stringsToLower u (stripHRPRewards address) = addr then
            sumOutputs u addr rest (true, (state.2 + o.Amount) % 2 ^ 64)
          else sumOutputs u addr rest state

/-- Function `coinbaseSumToAddress`: whether an output of the coinbase pays the
address, and the sum of those outputs. -/
def coinbaseSumToAddress (u : UnicodeOps) (block : Option RewardsBlock) (addr : String) :
    Bool × Nat :=
  match block with
  | none => (false, 0)
  | some b =>
      match b.Transactions with
      | [] => (false, 0)
      | none :: _ => (false, 0)
      | some cb :: _ =>
          if cb.Outputs.length = 0 then (false, 0)
          else
            let addr := stringsTrimSpace u addr
            let addr := stringsToLower u (stripHRPRewards addr)
            sumOutputs u addr cb.Outputs (false, 0)

/-- The loop of `sanitizeWorkerIDRewards` that keeps letters, digits, `.`, `_`
and `-` until 32 bytes are written; `written` is `b.Len()`. -/
def keepWorkerChars (u : UnicodeOps) : List Char → Nat → List Char
  | [], _ => []
  | r :: rest, written =>
      if u.IsLetter r || u.IsDigit r || r = '.' || r = '_' || r = '-' then
        if written + r.utf8Size ≥ 32 then [r]
        else r :: keepWorkerChars u rest (written + r.utf8Size)
      else keepWorkerChars u rest written

/-- Function `sanitizeWorkerIDRewards`. -/
def sanitizeWorkerIDRewards (u : UnicodeOps) (s : String) : String :=
  let s := stringsTrimSpace u s
  if s = "" then ""
  else stringsToLower u (String.mk (keepWorkerChars u (replaceSpaces s).data 0))

/-- Function `findMinedBluesFromMergeSet`: the merge-set blues whose block can
be fetched and carries a worker tag. -/
def findMinedBluesFromMergeSet (env : RewardsEnv) : List String → List MinedBlue
  | [] => []
  | h :: rest =>
      if goLen h ≠ 64 then findMinedBluesFromMergeSet env rest
      else
        match env.GetBlock h with
        | none => findMinedBluesFromMergeSet env rest
        | some br =>
            match br.Block with
            | none => findMinedBluesFromMergeSet env rest
            | some block =>
                if env.extractWorkerFromPayload block = "" then
                  findMinedBluesFromMergeSet env rest
                else
                  { Hash := h, Worker := env.extractWorkerFromPayload block } ::
                    findMinedBluesFromMergeSet env rest

/-- The loop `for i, mb := range mined` of `processPayingBlock`, from the
current value of `assignedRemainder`; the amounts are `uint64`. -/
def payRows (u : UnicodeOps) (workerFilter want : String) (portion remainder : Nat)
    (payingHash : String) (paidBlueScore : Nat) (paidAt : Int) :
    List MinedBlue → Bool → List RewardsRow
  | [], _ => []
  | mb :: rest, assignedRemainder =>
      if workerFilter ≠ "" ∧ sanitizeWorkerIDRewards u mb.Worker ≠ want then
        payRows u workerFilter want portion remainder payingHash paidBlueScore paidAt rest
          assignedRemainder
      else
        { MinedBlueHash := mb.Hash
          Worker := mb.Worker
          RewardAtoms :=
            if !assignedRemainder then (portion + remainder) % 2 ^ 64 else portion
          PaidByBlockHash := payingHash
          PaidBlueScore := paidBlueScore
          PaidAtMS := paidAt } ::
          payRows u workerFilter want portion remainder payingHash paidBlueScore paidAt rest true

/-- Function `processPayingBlock`: the rows of one chain block (the returned
error is always nil; a nil slice is the empty list). -/
def processPayingBlock (env : RewardsEnv) (br : Option GetBlockResponseMessage) (addr : String)
    (workerFilter : String) : Except GoError (List RewardsRow) :=
  match br with
  | none => Except.ok []
  | some response =>
      match response.Block with
      | none => Except.ok []
      | some block =>
          match block.VerboseData with
          | none => Except.ok []
          | some verbose =>
              if !verbose.IsChainBlock then Except.ok []
              else
                let paid := coinbaseSumToAddress env.unicode (some block) addr
                if !paid.1 || paid.2 = 0 then Except.ok []
                else
                  let mined := findMinedBluesFromMergeSet env verbose.MergeSetBluesHashes
                  if mined.length = 0 then Except.ok []
                  else
                    let portion := paid.2 / (mined.length % 2 ^ 64)
                    let remainder := paid.2 % (mined.length % 2 ^ 64)
                    let paidAt : Int :=
                      match block.HeaderTimestamp with
                      | some t => t
                      | none => 0
                    let rows :=
                      payRows env.unicode workerFilter
                        (sanitizeWorkerIDRewards env.unicode workerFilter) portion remainder
                        verbose.Hash verbose.BlueScore paidAt mined false
                    if workerFilter ≠ "" ∧ rows.length = 0 then Except.ok []
                    else Except.ok rows

/-- The ASCII part of the `unicode` tables: every other character is taken to
be no space, letter or digit and to be its own lower case. -/
def asciiUnicode : UnicodeOps :=
  { IsSpace := fun c => c = ' ' || c = '\t' || c = '\n' || c = '\r' || c.toNat = 11 || c.toNat = 12
    IsLetter := fun c => (decide ('a' ≤ c) && decide (c ≤ 'z')) || (decide ('A' ≤ c) && decide (c ≤ 'Z'))
    IsDigit := fun c => decide ('0' ≤ c) && decide (c ≤ '9')
    ToLower := fun c =>
      if decide ('A' ≤ c) && decide (c ≤ 'Z') then Char.ofNat (c.toNat + 32) else c }

/-- A chain block whose coinbase pays `amount` atoms to `hoosat:qx` and whose
merge set names the given blues. -/
def demoPayingBlock (amount : Nat) (blues : List String) : RewardsBlock :=
  { HeaderTimestamp := some 1759322062398
    Transactions :=
      [some { Outputs := [some { Amount := amount, ScriptPublicKeyAddress := some "hoosat:qx" }],
              Payload := "" }]
    VerboseData :=
      some { IsChainBlock := true, MergeSetBluesHashes := blues, BlueScore := 72787561,
             Hash := "paying" } }

/-- A hash text of 64 characters that starts with the given character. -/
def demoBlueHash (c : Char) : String := String.mk (c :: List.replicate 63 '0')

/-- The toy outside of the rewards endpoint: every block can be fetched and
was mined by worker `Volta`. -/
def demoRewardsEnv : RewardsEnv :=
  { GetBlock := fun _ =>
      some { Block := some { HeaderTimestamp := none, Transactions := [], VerboseData := none } }
    unicode := asciiUnicode
    extractWorkerFromPayload := fun _ => "Volta" }


/-- Three blue hashes of a merge set. -/
def demoBlues : List String := [demoBlueHash 'a', demoBlueHash 'b', demoBlueHash 'c']

/-- The stage index of a worker is a valid index into the tables `windows` and
`tolerances` of seven entries. -/
def stageInRange {F : Type} (v : WorkStats F) : Prop :=
  0 ≤ v.VarDiffWindow ∧ v.VarDiffWindow ≤ 6

instance stageInRangeDecidable {F : Type} (v : WorkStats F) : Decidable (stageInRange v) :=
  inferInstanceAs (Decidable (0 ≤ v.VarDiffWindow ∧ v.VarDiffWindow ≤ 6))

/-- The part of a worker's stats that belongs to the difficulty controller:
`VarDiffSharesFound`, `VarDiffWindow`, `VarDiffStartTime` and `MinDiff`. -/
def vardiffState {F : Type} (s : WorkStats F) : Int × Int × Nat × F :=
  (s.VarDiffSharesFound, s.VarDiffWindow, s.VarDiffStartTime, s.MinDiff)

/-- Relation between the world before and after a step: no stats object is
freed, every stats object that existed keeps its controller fields, and every
stats object allocated by the step has the controller fields of a new
`WorkStats`. -/
def VarDiffKept {F : Type} [Zero F] (w w2 : World F) : Prop :=
  w.heapNext ≤ w2.heapNext ∧
  (∀ q, q < w.heapNext → vardiffState (w2.heap q) = vardiffState (w.heap q)) ∧
  (∀ q, w.heapNext ≤ q → q < w2.heapNext →
    vardiffState (w2.heap q) = vardiffState (WorkStats.zero F))

/-- The toy world with the tracker of worker `w1` running: stage 2, seven shares
in the window, started at second `1000`, minimum difficulty `4`. -/
def demoTrackedWorld : World Int :=
  { demoWorld with
      heap := fun _ =>
        { WorkStats.zero Int with
            WorkerName := "w1", VarDiffSharesFound := 7, VarDiffWindow := 2,
            VarDiffStartTime := 1000, MinDiff := 4 } }

/-! ## The arithmetic of `float64`

Every operation of `float64` is the exact operation followed by rounding to the
nearest number of the format, to the one with the even significand on a tie
(IEEE 754 binary64, the only rounding mode of Go).  The values are the exact
numbers that the format holds; negative zero is identified with zero. -/

/-- The number of binary digits of `n`, by recursion on `fuel`. -/
def bitLengthFuel : Nat → Nat → Nat
  | 0, _ => 0
  | fuel + 1, n =>
      if n = 0 then 0
      else if n < 65536 then bitLengthFuel fuel (n / 2) + 1
      else bitLengthFuel fuel (n / 65536) + 16

/-- The number of binary digits of `n`: the least `k` with `n < 2^k`. -/
def bitLength (n : Nat) : Nat := bitLengthFuel n n

/-- The integer `k` with `2^k ≤ a / d < 2^(k+1)`, for positive `a` and `d`. -/
def floorLog2 (a d : Nat) : Int :=
  let k : Int := (bitLength a : Int) - (bitLength d : Int)
  if d * 2 ^ k.toNat ≤ a * 2 ^ (-k).toNat then k else k - 1

/-- Rounding of an exact number to `float64`: with `e` the binary exponent of
the number, at least `-1022`, the number is rounded to a multiple of
`2^(e - 52)`, to the even multiple on a tie; a result of `2^1024` or more is an
infinity. -/
def roundFloat64 : ExactFloat → ExactFloat
  | ExactFloat.fin n d =>
      if n = 0 then ExactFloat.fin 0 1
      else
        let a := n.natAbs
        let e : Int := if floorLog2 a d < -1022 then -1022 else floorLog2 a d
        if 1024 ≤ e then ExactFloat.infOfSign n
        else
          let s : Int := e - 52
          let num := a * 2 ^ (-s).toNat
          let den := d * 2 ^ s.toNat
          let floor := num / den
          let twice := 2 * (num % den)
          let m := if den < twice ∨ (twice = den ∧ floor % 2 = 1) then floor + 1 else floor
          if e = 1023 ∧ m = 2 ^ 53 then ExactFloat.infOfSign n
          else ExactFloat.ofFrac (n.sign * ((m * 2 ^ s.toNat : Nat) : Int)) (2 ^ (-s).toNat)
  | x => x

/-- Function `math.Max` of Go: `+Inf` as soon as an argument is, else
not-a-number as soon as an argument is. -/
def maxFloat64 (x y : ExactFloat) : ExactFloat :=
  match x, y with
  | ExactFloat.posInf, _ => ExactFloat.posInf
  | _, ExactFloat.posInf => ExactFloat.posInf
  | x, y => ExactFloat.max x y

/-- The operations of `float64`: the exact operation, then the rounding.
Decimal literals and conversions of integers round as well. -/
def float64Ops : FloatOps ExactFloat :=
  { add := fun x y => roundFloat64 (ExactFloat.add x y)
    sub := fun x y => roundFloat64 (ExactFloat.sub x y)
    mul := fun x y => roundFloat64 (ExactFloat.mul x y)
    div := fun x y => roundFloat64 (ExactFloat.div x y)
    abs := ExactFloat.abs
    max := maxFloat64
    le := ExactFloat.le
    lt := ExactFloat.lt
    ofInt := fun n => roundFloat64 (ExactFloat.fin n 1)
    lit := fun n d => roundFloat64 (ExactFloat.ofFrac (n : Int) d)
    format2 := ExactFloat.format2 }

/-! # Theorems -/

/-! ## Lemmas on machine arithmetic, maps and the heap -/

theorem subUint64_exact (a b : Nat) (ha : a < 2 ^ 64) (hb : b ≤ a) :
    subUint64 a b = a - b := by
  unfold subUint64
  omega

theorem addInt64_one (x : Int) (hlo : -2 ^ 63 ≤ x) (hhi : x < 2 ^ 63 - 1) :
    addInt64 x 1 = x + 1 := by
  unfold addInt64 wrapInt64
  omega

theorem lookup_filter_ne {α β : Type} [DecidableEq α] (m : List (α × β)) (k k2 : α)
    (h : k2 ≠ k) :
    (m.filter (fun e => decide (e.1 ≠ k))).lookup k2 = m.lookup k2 := by
  induction m with
  | nil => rfl
  | cons e m ih =>
    obtain ⟨a, b⟩ := e
    simp only [ne_eq, decide_not] at ih ⊢
    by_cases ha : a = k
    · subst ha
      have : (k2 == a) = false := by simpa using h
      simp [List.filter_cons, List.lookup_cons, this, ih]
    · by_cases h2 : k2 = a
      · subst h2
        simp [List.filter_cons, List.lookup_cons, ha]
      · have : (k2 == a) = false := by simpa using h2
        simp [List.filter_cons, List.lookup_cons, ha, this, ih]

theorem lookup_filter_self {α β : Type} [DecidableEq α] (m : List (α × β)) (k : α) :
    (m.filter (fun e => decide (e.1 ≠ k))).lookup k = none := by
  induction m with
  | nil => rfl
  | cons e m ih =>
    obtain ⟨a, b⟩ := e
    simp only [ne_eq, decide_not] at ih ⊢
    by_cases ha : a = k
    · simp [List.filter_cons, ha, ih]
    · have : (k == a) = false := by simpa using fun h => ha h.symm
      simp [List.filter_cons, List.lookup_cons, ha, this, ih]

theorem GetJob_RemoveJob {F : Type} (ms : MiningState F) (id j : Int) :
    (ms.RemoveJob id).GetJob j = if j = id then none else ms.GetJob j := by
  simp only [MiningState.GetJob, MiningState.RemoveJob]
  split_ifs with h
  · subst h; exact lookup_filter_self _ _
  · exact lookup_filter_ne _ _ _ h

theorem mapGet_mapSet_self (m : List (String × Nat)) (k : String) (v : Nat) :
    mapGet (mapSet m k v) k = some v := by
  simp [mapGet, mapSet, List.lookup_cons]

theorem mapGet_mapDelete_ne (m : List (String × Nat)) (k k2 : String) (h : k2 ≠ k) :
    mapGet (mapDelete m k) k2 = mapGet m k2 := by
  induction m with
  | nil => rfl
  | cons e m ih =>
    obtain ⟨a, b⟩ := e
    simp only [mapGet, mapDelete, ne_eq, decide_not] at ih ⊢
    by_cases ha : a = k
    · subst ha
      have : (k2 == a) = false := by simpa using h
      simp [List.filter_cons, List.lookup_cons, this, ih]
    · by_cases h2 : k2 = a
      · subst h2
        simp [List.filter_cons, List.lookup_cons, ha]
      · have : (k2 == a) = false := by simpa using h2
        simp [List.filter_cons, List.lookup_cons, ha, this, ih]

theorem mapGet_mapSet_ne (m : List (String × Nat)) (k k2 : String) (v : Nat) (h : k2 ≠ k) :
    mapGet (mapSet m k v) k2 = mapGet m k2 := by
  have : (k2 == k) = false := by simpa using h
  have h2 := mapGet_mapDelete_ne m k k2 h
  simp only [mapGet, mapSet, List.lookup_cons, this] at h2 ⊢
  exact h2

theorem heapUpdate_same {α : Type} (heap : Nat → α) (p : Nat) (f : α → α) :
    heapUpdate heap p f p = f (heap p) := by
  simp [heapUpdate]

theorem heapUpdate_other {α : Type} (heap : Nat → α) (p q : Nat) (f : α → α) (h : q ≠ p) :
    heapUpdate heap p f q = heap q := by
  simp [heapUpdate, h]

/-! ## Lemmas on the registry, the stale check and the validation -/

theorem getCreateStats_frame {F : Type} [Zero F] (env : Env) (w : World F) :
    (getCreateStats env w).1.ctx = w.ctx ∧
    (getCreateStats env w).1.replies = w.replies ∧
    (getCreateStats env w).1.submitted = w.submitted ∧
    (getCreateStats env w).1.logs = w.logs ∧
    (getCreateStats env w).1.sh.overall = w.sh.overall ∧
    (getCreateStats env w).1.sh.tipBlueScore = w.sh.tipBlueScore := by
  simp only [getCreateStats]
  split
  · simp
  · split
    · split <;> simp
    · simp

/-- A second call of `getCreateStats` on the same connection returns the same pointer and
changes no counter. -/
theorem getCreateStats_stable {F : Type} [Zero F] (env env2 : Env) (w w2 : World F)
    (hs : w2.sh.stats = (getCreateStats env w).1.sh.stats)
    (hn : w2.ctx.WorkerName = w.ctx.WorkerName) (hr : w2.ctx.RemoteAddr = w.ctx.RemoteAddr) :
    (getCreateStats env2 w2).2 = (getCreateStats env w).2 ∧
    ∀ q, ((getCreateStats env2 w2).1.heap q).counters = (w2.heap q).counters := by
  simp only [getCreateStats] at hs ⊢
  rw [hn, hr]
  by_cases hN : w.ctx.WorkerName = ""
  · simp only [hN, ne_eq, not_true_eq_false, if_false] at hs ⊢
    cases hR : mapGet w.sh.stats w.ctx.RemoteAddr with
    | some p =>
      simp only [hR] at hs ⊢
      simp only [hs, hR]
      first | exact ⟨rfl, fun _ => rfl⟩ | simp
    | none =>
      simp only [hR] at hs ⊢
      simp only [hs, mapGet_mapSet_self]
      first | exact ⟨rfl, fun _ => rfl⟩ | simp
  · simp only [hN, ne_eq, not_false_eq_true, if_true] at hs ⊢
    cases hW : mapGet w.sh.stats w.ctx.WorkerName with
    | some p =>
      simp only [hW] at hs ⊢
      simp only [hs, hW]
      first | exact ⟨rfl, fun _ => rfl⟩ | simp
    | none =>
      simp only [hW] at hs ⊢
      cases hR : mapGet w.sh.stats w.ctx.RemoteAddr with
      | some p =>
        simp only [hR] at hs ⊢
        simp only [hs, mapGet_mapSet_self]
        first | exact ⟨rfl, fun _ => rfl⟩ | simp
      | none =>
        simp only [hR] at hs ⊢
        by_cases hNR : w.ctx.WorkerName = w.ctx.RemoteAddr
        · simp only [hs, hNR, mapGet_mapSet_self]
          first | exact ⟨rfl, fun _ => rfl⟩ | simp
        · simp only [hs, mapGet_mapSet_ne _ _ _ _ hNR, hW, mapGet_mapSet_self]
          refine ⟨by first | rfl | simp, fun q => ?_⟩
          by_cases hq : q = w.heapNext
          · subst hq; simp [heapUpdate, WorkStats.counters]
          · simp [heapUpdate, hq, WorkStats.counters]

theorem validateSubmit_ok_world {F : Type} (env : Env) (w : World F) (event : JsonRpcEvent)
    (si : SubmitInfo) (h : (validateSubmit env w event).2 = Except.ok si) :
    (validateSubmit env w event).1 = w := by
  simp only [validateSubmit, badData] at h ⊢
  repeat' split
  all_goals first | rfl | simp_all

theorem checkStales_frame {F : Type} (w : World F) (si : SubmitInfo) :
    (checkStales w si).1.heap = w.heap ∧ (checkStales w si).1.ctx = w.ctx ∧
    (checkStales w si).1.replies = w.replies ∧ (checkStales w si).1.submitted = w.submitted ∧
    (checkStales w si).1.sh.stats = w.sh.stats ∧ (checkStales w si).1.sh.overall = w.sh.overall ∧
    (checkStales w si).1.logs = w.logs := by
  simp only [checkStales]
  split_ifs <;> simp [RecordStaleShare]

theorem checkStales_result {F : Type} (w w2 : World F) (si si2 : SubmitInfo)
    (ht : w2.sh.tipBlueScore = w.sh.tipBlueScore) (hb : si2.block = si.block) :
    (checkStales w2 si2).2 = (checkStales w si).2 := by
  simp only [checkStales, ht, hb]
  split_ifs <;> rfl

theorem submit_ctx {F : Type} [Zero F] (env : Env) (w : World F) (block : DomainBlock)
    (si : SubmitInfo) (id : JsonValue) :
    (submit env w block si id).1.ctx = { w.ctx with State := w.ctx.State.RemoveJob si.jobId } := by
  simp only [submit]
  split
  · split_ifs <;>
      simp [sendReply, RecordStaleShare, addStaleShare, addInvalidShare, logLine, removeJob,
        (getCreateStats_frame env _).1]
  · simp [sendReply, addBlockFound, removeJob, (getCreateStats_frame env _).1]

/-- When the submit is valid, the nonce parses and the stale check passes, `HandleSubmit` is the
classification of the share in the world left by the stale check. -/
theorem HandleSubmit_of_fresh {F : Type} [Add F] [Zero F] (env : Env) (w : World F)
    (event : JsonRpcEvent) (soloMining : Bool) (si : SubmitInfo) (nonceVal : Nat)
    (hvalid : (validateSubmit env w event).2 = Except.ok si)
    (hnonce : ParseUintHex64 (addExtranonce w.ctx.Extranonce si.noncestr) = some nonceVal)
    (hfresh : (checkStales w si).2 = none) :
    HandleSubmit env w event soloMining =
      classifyShare env
        (checkStales (getCreateStats env w).1
          { jobId := si.jobId, block := si.block,
            noncestr := addExtranonce w.ctx.Extranonce si.noncestr,
            nonceVal := nonceVal, powHash := si.powHash }).1
        event soloMining
        { jobId := si.jobId, block := si.block,
          noncestr := addExtranonce w.ctx.Extranonce si.noncestr,
          nonceVal := nonceVal, powHash := si.powHash }
        (getCreateStats env w).2 := by
  have hw := validateSubmit_ok_world env w event si hvalid
  have hst : (checkStales (getCreateStats env w).1
      { jobId := si.jobId, block := si.block,
        noncestr := addExtranonce w.ctx.Extranonce si.noncestr,
        nonceVal := nonceVal, powHash := si.powHash }).2 = none :=
    (checkStales_result w _ si _ (getCreateStats_frame env w).2.2.2.2.2 rfl).trans hfresh
  simp only [HandleSubmit, hw, hvalid, ite_self, hnonce, hst]

theorem classifyShare_block_accepted {F : Type} [Add F] [Zero F] (env : Env) (w : World F)
    (event : JsonRpcEvent) (soloMining : Bool) (si : SubmitInfo) (p : Nat)
    (converted : DomainBlock)
    (hconv : env.RPCBlockToDomainBlock si.block (env.hashString si.powHash) = some converted)
    (hpow : toBig si.powHash =
      (env.CalculateProofOfWorkValue { converted with Nonce := si.nonceVal }).1)
    (hnet : (env.CalculateProofOfWorkValue { converted with Nonce := si.nonceVal }).1 ≤
      env.Target { converted with Nonce := si.nonceVal })
    (hnode : env.SubmitBlock { converted with Nonce := si.nonceVal }
      (env.hashString si.powHash) = none)
    (hp : (getCreateStats env { w with submitted := w.submitted ++
      [(({ converted with Nonce := si.nonceVal } : DomainBlock), env.hashString si.powHash)] }).2 = p)
    (hcnt : ((getCreateStats env { w with submitted := w.submitted ++
      [(({ converted with Nonce := si.nonceVal } : DomainBlock), env.hashString si.powHash)] }).1.heap
        p).counters = (w.heap p).counters) :
    (classifyShare env w event soloMining si p).2 = none ∧
    (classifyShare env w event soloMining si p).1.replies = w.replies ++ [Reply.success event.Id] ∧
    ((classifyShare env w event soloMining si p).1.heap p).counters =
      (addInt64 (w.heap p).BlocksFound 1, addInt64 (w.heap p).SharesFound 1,
        (w.heap p).SharesDiff + w.ctx.State.stratumDiff.hashValue,
        (w.heap p).StaleShares, (w.heap p).InvalidShares) := by
  simp only [WorkStats.counters, Prod.mk.injEq] at hcnt
  obtain ⟨hb, hs, hd, hst, hi⟩ := hcnt
  simp only [classifyShare, hconv, hpow, hnet, if_true, submit, hnode, hp]
  refine ⟨trivial, ?_, ?_⟩
  · simp [recordShare, addBlockFound, sendReply, removeJob, (getCreateStats_frame env _).2.1]
  · simp [recordShare, addBlockFound, sendReply, removeJob, heapUpdate_same, WorkStats.counters,
      hb, hs, hd, hst, hi, (getCreateStats_frame env _).1, MiningState.RemoveJob]

/-! ## Lemmas on the reversal loop of `toBig` -/

theorem swapAt_length (buf : List (Fin 256)) (i j : Nat) :
    (swapAt buf i j).length = buf.length := by
  unfold swapAt
  split <;> simp

theorem swapAt_getElem? (buf : List (Fin 256)) (i j : Nat) (hi : i < buf.length)
    (hj : j < buf.length) (q : Nat) :
    (swapAt buf i j)[q]? = if q = j then buf[i]? else if q = i then buf[j]? else buf[q]? := by
  unfold swapAt
  rw [List.getElem?_eq_getElem hi, List.getElem?_eq_getElem hj]
  simp only [List.getElem?_set, List.length_set]
  split_ifs <;> first | rfl | (exfalso; omega)

theorem reverseLoop_spec (n : Nat) : ∀ (k i : Nat) (buf : List (Fin 256)),
    buf.length = n → i + k ≤ n / 2 →
    (reverseLoop n k i buf).length = n ∧
    ∀ q, q < n → (reverseLoop n k i buf)[q]? =
      if (i ≤ q ∧ q < i + k) ∨ (i ≤ n - 1 - q ∧ n - 1 - q < i + k) then buf[n - 1 - q]?
      else buf[q]? := by
  intro k
  induction k with
  | zero =>
    intro i buf hlen _
    refine ⟨by simpa [reverseLoop] using hlen, ?_⟩
    intro q _
    have : ¬ ((i ≤ q ∧ q < i + 0) ∨ (i ≤ n - 1 - q ∧ n - 1 - q < i + 0)) := by omega
    simp only [reverseLoop, if_neg this]
  | succ k ih =>
    intro i buf hlen hk
    have hi : i < buf.length := by omega
    have hj : n - 1 - i < buf.length := by omega
    obtain ⟨h1, h2⟩ := ih (i + 1) (swapAt buf i (n - 1 - i))
      (by rw [swapAt_length]; exact hlen) (by omega)
    refine ⟨by simpa [reverseLoop] using h1, ?_⟩
    intro q hq
    simp only [reverseLoop]
    rw [h2 q hq, swapAt_getElem? _ _ _ hi hj, swapAt_getElem? _ _ _ hi hj]
    split_ifs <;> first | rfl | (exfalso; omega) | (congr 1; omega)

theorem reverseLoop_eq_reverse (buf : List (Fin 256)) :
    reverseLoop buf.length (buf.length / 2) 0 buf = buf.reverse := by
  obtain ⟨h1, h2⟩ := reverseLoop_spec buf.length (buf.length / 2) 0 buf rfl (by omega)
  apply List.ext_getElem?
  intro q
  by_cases hq : q < buf.length
  · rw [h2 q hq, List.getElem?_reverse hq]
    split_ifs <;> first | rfl | (congr 1; omega)
  · rw [List.getElem?_eq_none (by omega), List.getElem?_eq_none (by simp; omega)]

theorem SetBytes_reverse (l : List (Fin 256)) : SetBytes l.reverse = leValue l := by
  unfold SetBytes
  rw [List.foldl_reverse]
  induction l with
  | nil => rfl
  | cons b bs ih => simp only [List.foldr_cons, leValue, ih]; omega

theorem toBig_eq_leValue (h : DomainHash) : toBig h = leValue h.bytes := by
  simp only [toBig]
  rw [reverseLoop_eq_reverse, SetBytes_reverse]

theorem leValue_lt (l : List (Fin 256)) : leValue l < 256 ^ l.length := by
  induction l with
  | nil => simp [leValue]
  | cons b bs ih =>
    simp only [leValue, List.length_cons, pow_succ]
    have := b.isLt
    omega

theorem leValue_injective : ∀ (l1 l2 : List (Fin 256)), l1.length = l2.length →
    leValue l1 = leValue l2 → l1 = l2
  | [], [], _, _ => rfl
  | [], _ :: _, h, _ => by simp at h
  | _ :: _, [], h, _ => by simp at h
  | a :: l1, b :: l2, hlen, hv => by
    simp only [leValue] at hv
    have ha := a.isLt
    have hb := b.isLt
    have h1 : a.val = b.val := by omega
    have h2 : leValue l1 = leValue l2 := by omega
    have := leValue_injective l1 l2 (by simpa using hlen) h2
    rw [this, Fin.ext h1]

theorem leValue_eq_sum (l : List (Fin 256)) :
    leValue l = ∑ i ∈ Finset.range l.length, (l.getD i 0).val * 256 ^ i := by
  induction l with
  | nil => simp [leValue]
  | cons b bs ih =>
    rw [List.length_cons, Finset.sum_range_succ', leValue, ih, Finset.mul_sum]
    simp only [List.getD_cons_succ, List.getD_cons_zero, pow_zero, mul_one, pow_succ]
    rw [add_comm]
    congr 1
    apply Finset.sum_congr rfl
    intro i _
    ring

/-! ## The accepted-share path -/

/-- The accepted-share path in general: with a valid, fresh submit whose claimed proof of work
equals the recomputed number `p` and `network target < p < stratum target`, `HandleSubmit`
returns no error, `SharesFound` of the worker rises by one, `SharesDiff` by the `hashValue` of
the stratum difficulty, the other three counters keep their values, and no reply helper is
called. -/
theorem HandleSubmit_accepted_share {F : Type} [Add F] [Zero F] (env : Env) (w : World F)
    (event : JsonRpcEvent) (soloMining : Bool) (si : SubmitInfo) (nonceVal : Nat)
    (converted : DomainBlock)
    (hvalid : (validateSubmit env w event).2 = Except.ok si)
    (hnonce : ParseUintHex64 (addExtranonce w.ctx.Extranonce si.noncestr) = some nonceVal)
    (hfresh : (checkStales w si).2 = none)
    (hconv : env.RPCBlockToDomainBlock si.block (env.hashString si.powHash) = some converted)
    (hpow : toBig si.powHash =
      (env.CalculateProofOfWorkValue { converted with Nonce := nonceVal }).1)
    (hnet : env.Target { converted with Nonce := nonceVal } <
      (env.CalculateProofOfWorkValue { converted with Nonce := nonceVal }).1)
    (hstratum : (env.CalculateProofOfWorkValue { converted with Nonce := nonceVal }).1 <
      w.ctx.State.stratumDiff.targetValue)
    (hslo : -2 ^ 63 ≤ ((getCreateStats env w).1.heap (getCreateStats env w).2).SharesFound)
    (hshi : ((getCreateStats env w).1.heap (getCreateStats env w).2).SharesFound < 2 ^ 63 - 1) :
    (HandleSubmit env w event soloMining).1.replies = w.replies ∧
    (HandleSubmit env w event soloMining).2 = none ∧
    ((HandleSubmit env w event soloMining).1.heap (getCreateStats env w).2).SharesFound =
      ((getCreateStats env w).1.heap (getCreateStats env w).2).SharesFound + 1 ∧
    ((HandleSubmit env w event soloMining).1.heap (getCreateStats env w).2).SharesDiff =
      ((getCreateStats env w).1.heap (getCreateStats env w).2).SharesDiff +
        w.ctx.State.stratumDiff.hashValue ∧
    ((HandleSubmit env w event soloMining).1.heap (getCreateStats env w).2).BlocksFound =
      ((getCreateStats env w).1.heap (getCreateStats env w).2).BlocksFound ∧
    ((HandleSubmit env w event soloMining).1.heap (getCreateStats env w).2).StaleShares =
      ((getCreateStats env w).1.heap (getCreateStats env w).2).StaleShares ∧
    ((HandleSubmit env w event soloMining).1.heap (getCreateStats env w).2).InvalidShares =
      ((getCreateStats env w).1.heap (getCreateStats env w).2).InvalidShares := by
  obtain ⟨hc1, hc2, hc3, hc4, hc5, hc6, hc7⟩ := checkStales_frame (getCreateStats env w).1
      { jobId := si.jobId, block := si.block,
        noncestr := addExtranonce w.ctx.Extranonce si.noncestr,
        nonceVal := nonceVal, powHash := si.powHash }
  obtain ⟨hg1, hg2, hg3, hg4, hg5, hg6⟩ := getCreateStats_frame env w
  rw [HandleSubmit_of_fresh env w event soloMining si nonceVal hvalid hnonce hfresh]
  have h1 : ¬ (env.CalculateProofOfWorkValue { converted with Nonce := nonceVal }).1 ≤
      env.Target { converted with Nonce := nonceVal } := by omega
  have h2 : ¬ (env.CalculateProofOfWorkValue { converted with Nonce := nonceVal }).1 ≥
      w.ctx.State.stratumDiff.targetValue := by omega
  simp only [classifyShare, hconv, hpow, h1, if_true, if_false, hc2, hg1, h2, recordShare, hc1,
    hc3, hg2, heapUpdate_same, addInt64_one _ hslo hshi]
  simp

/-! ## The claims -/

/-- Claim C1: for every tip (a `uint64`) and every job blue score, `checkStales`
returns the stale-share error exactly when `blue_score <= tip` and
`tip - blue_score > 8`; it returns no other error; a job with
`tip <= blue_score + 8` is never stale; whenever the subtraction is executed it
does not wrap; and the stored tip afterwards is `max tip blue_score`. -/
theorem checkStales_stale_iff {F : Type} (w : World F) (si : SubmitInfo)
    (htip : w.sh.tipBlueScore < 2 ^ 64) :
    ((checkStales w si).2 = some (GoError.wrap GoError.ErrStaleShare "blueScore %d vs %d") ↔
        si.block.Header.BlueScore ≤ w.sh.tipBlueScore ∧
          w.sh.tipBlueScore - si.block.Header.BlueScore > 8) ∧
    ((checkStales w si).2 ≠ none →
        (checkStales w si).2 = some (GoError.wrap GoError.ErrStaleShare "blueScore %d vs %d")) ∧
    (w.sh.tipBlueScore ≤ si.block.Header.BlueScore + 8 → (checkStales w si).2 = none) ∧
    (¬ si.block.Header.BlueScore > w.sh.tipBlueScore →
        subUint64 w.sh.tipBlueScore si.block.Header.BlueScore =
          w.sh.tipBlueScore - si.block.Header.BlueScore) ∧
    (checkStales w si).1.sh.tipBlueScore = max w.sh.tipBlueScore si.block.Header.BlueScore := by
  have hsub : ¬ si.block.Header.BlueScore > w.sh.tipBlueScore →
      subUint64 w.sh.tipBlueScore si.block.Header.BlueScore =
        w.sh.tipBlueScore - si.block.Header.BlueScore :=
    fun h => subUint64_exact _ _ htip (by omega)
  refine ⟨?_, ?_, ?_, hsub, ?_⟩
  · simp only [checkStales]
    split_ifs with h1 h2
    · simp; omega
    · rw [hsub h1, workWindow] at h2
      simp; omega
    · rw [hsub h1, workWindow] at h2
      simp; omega
  · simp only [checkStales]
    split_ifs with h1 h2 <;> simp
  · simp only [checkStales]
    split_ifs with h1 h2
    · simp
    · rw [hsub h1, workWindow] at h2
      simp; omega
    · simp
  · simp only [checkStales]
    split_ifs with h1 h2
    · simp only []; rw [max_eq_right (by omega)]
    · simp only [RecordStaleShare]; rw [max_eq_left (by omega)]
    · simp only []; rw [max_eq_left (by omega)]

/-- Witness of `checkStales_stale_iff`: with the tip at `100`, a job at blue
score `91` is stale and the tip stays at `100`. -/
theorem checkStales_stale_iff_witness :
    demoWorld.sh.tipBlueScore < 2 ^ 64 ∧
    (checkStales demoWorld (demoInfo 91)).2 =
      some (GoError.wrap GoError.ErrStaleShare "blueScore %d vs %d") ∧
    (checkStales demoWorld (demoInfo 91)).1.sh.tipBlueScore =
      max demoWorld.sh.tipBlueScore (demoInfo 91).block.Header.BlueScore :=
  have h := checkStales_stale_iff demoWorld (demoInfo 91) (by decide)
  ⟨by decide, h.1.mpr ⟨by decide, by decide⟩, h.2.2.2.2⟩

/-- Claim C2, evaluated on the code: the same `(job, nonce, pow_hash)` submitted
twice on one connection as a share between the network and the stratum target
is credited twice (`SharesFound` goes from `0` to `2`), no reply is a
duplicate-share reply and `InvalidShares` stays `0`. -/
theorem handleSubmits_same_share_twice :
    ((handleSubmits false demoWorld
        [(demoEnv none, demoEvent "1" "5" demoHash5),
         (demoEnv none, demoEvent "1" "5" demoHash5)]).1.heap 0).SharesFound = 2 ∧
    ((handleSubmits false demoWorld
        [(demoEnv none, demoEvent "1" "5" demoHash5),
         (demoEnv none, demoEvent "1" "5" demoHash5)]).1.heap 0).InvalidShares = 0 ∧
    Reply.dupeShare (JsonValue.num 1) ∉
      (handleSubmits false demoWorld
        [(demoEnv none, demoEvent "1" "5" demoHash5),
         (demoEnv none, demoEvent "1" "5" demoHash5)]).1.replies := by
  decide

/-- Claim C3, evaluated on the code: one submit whose block the node rejects as
a duplicate block raises both `StaleShares` and `SharesFound` of the worker, so
after one processed submit the three counters sum to `2`. -/
theorem handleSubmits_rejected_block_counted_twice :
    [(demoEnv (some "ErrDuplicateBlock"), demoEvent "1" "2" demoHash2)].length = 1 ∧
    ((handleSubmits false demoWorld
        [(demoEnv (some "ErrDuplicateBlock"), demoEvent "1" "2" demoHash2)]).1.heap 0).StaleShares +
      ((handleSubmits false demoWorld
        [(demoEnv (some "ErrDuplicateBlock"), demoEvent "1" "2" demoHash2)]).1.heap 0).InvalidShares +
      ((handleSubmits false demoWorld
        [(demoEnv (some "ErrDuplicateBlock"), demoEvent "1" "2" demoHash2)]).1.heap 0).SharesFound
      = 2 := by
  decide

/-- Claim C4, evaluated on the code: a submit whose recomputed proof-of-work
number equals the stratum target (and exceeds the network target) is answered
with the low-difficulty reply, `SharesFound` stays `0` and `InvalidShares`
becomes `1`. -/
theorem HandleSubmit_share_at_stratum_target :
    toBig (DomainHash.mk (leBytes 32 10)) = demoWorld.ctx.State.stratumDiff.targetValue ∧
    (HandleSubmit (demoEnv none) demoWorld (demoEvent "1" "a" demoHash10) false).1.replies =
      [Reply.lowDiffShare (JsonValue.num 1)] ∧
    ((HandleSubmit (demoEnv none) demoWorld (demoEvent "1" "a" demoHash10) false).1.heap 0).SharesFound
      = 0 ∧
    ((HandleSubmit (demoEnv none) demoWorld (demoEvent "1" "a" demoHash10) false).1.heap
      0).InvalidShares = 1 := by
  decide

/-- Claim C5: when the submit validates, the nonce parses, the stale check
passes, the claimed proof of work equals the recomputed one, this number is at
most the network target and the node accepts the block, then `HandleSubmit`
sends the success reply and returns no error, `BlocksFound` and `SharesFound` of
the worker rise by exactly one, `SharesDiff` rises by the `hashValue` of the
stratum difficulty, and `StaleShares` and `InvalidShares` keep their values.
The counters before the call are those of the stats entry of the connection
(found, or created with zero counters); the two incremented counters are taken
below the largest `int64`. -/
theorem HandleSubmit_block_accepted {F : Type} [Add F] [Zero F] (env : Env) (w : World F)
    (event : JsonRpcEvent) (soloMining : Bool) (si : SubmitInfo) (nonceVal : Nat)
    (converted : DomainBlock)
    (hvalid : (validateSubmit env w event).2 = Except.ok si)
    (hnonce : ParseUintHex64 (addExtranonce w.ctx.Extranonce si.noncestr) = some nonceVal)
    (hfresh : (checkStales w si).2 = none)
    (hconv : env.RPCBlockToDomainBlock si.block (env.hashString si.powHash) = some converted)
    (hpow : toBig si.powHash =
      (env.CalculateProofOfWorkValue { converted with Nonce := nonceVal }).1)
    (hnet : (env.CalculateProofOfWorkValue { converted with Nonce := nonceVal }).1 ≤
      env.Target { converted with Nonce := nonceVal })
    (hnode : env.SubmitBlock { converted with Nonce := nonceVal } (env.hashString si.powHash) = none)
    (hblo : -2 ^ 63 ≤ ((getCreateStats env w).1.heap (getCreateStats env w).2).BlocksFound)
    (hbhi : ((getCreateStats env w).1.heap (getCreateStats env w).2).BlocksFound < 2 ^ 63 - 1)
    (hslo : -2 ^ 63 ≤ ((getCreateStats env w).1.heap (getCreateStats env w).2).SharesFound)
    (hshi : ((getCreateStats env w).1.heap (getCreateStats env w).2).SharesFound < 2 ^ 63 - 1) :
    (HandleSubmit env w event soloMining).1.replies = w.replies ++ [Reply.success event.Id] ∧
    (HandleSubmit env w event soloMining).2 = none ∧
    ((HandleSubmit env w event soloMining).1.heap (getCreateStats env w).2).BlocksFound =
      ((getCreateStats env w).1.heap (getCreateStats env w).2).BlocksFound + 1 ∧
    ((HandleSubmit env w event soloMining).1.heap (getCreateStats env w).2).SharesFound =
      ((getCreateStats env w).1.heap (getCreateStats env w).2).SharesFound + 1 ∧
    ((HandleSubmit env w event soloMining).1.heap (getCreateStats env w).2).SharesDiff =
      ((getCreateStats env w).1.heap (getCreateStats env w).2).SharesDiff +
        w.ctx.State.stratumDiff.hashValue ∧
    ((HandleSubmit env w event soloMining).1.heap (getCreateStats env w).2).StaleShares =
      ((getCreateStats env w).1.heap (getCreateStats env w).2).StaleShares ∧
    ((HandleSubmit env w event soloMining).1.heap (getCreateStats env w).2).InvalidShares =
      ((getCreateStats env w).1.heap (getCreateStats env w).2).InvalidShares := by
  obtain ⟨hc1, hc2, hc3, hc4, hc5, hc6, hc7⟩ := checkStales_frame (getCreateStats env w).1
      { jobId := si.jobId, block := si.block,
        noncestr := addExtranonce w.ctx.Extranonce si.noncestr,
        nonceVal := nonceVal, powHash := si.powHash }
  obtain ⟨hg1, hg2, hg3, hg4, hg5, hg6⟩ := getCreateStats_frame env w
  rw [HandleSubmit_of_fresh env w event soloMining si nonceVal hvalid hnonce hfresh]
  generalize (checkStales (getCreateStats env w).1
      { jobId := si.jobId, block := si.block,
        noncestr := addExtranonce w.ctx.Extranonce si.noncestr,
        nonceVal := nonceVal, powHash := si.powHash }).1 = w1 at hc1 hc2 hc3 hc4 hc5 hc6 hc7 ⊢
  obtain ⟨hp, hcnt⟩ := getCreateStats_stable env env w
    { w1 with submitted := w1.submitted ++
      [(({ converted with Nonce := nonceVal } : DomainBlock), env.hashString si.powHash)] }
    hc5 (by simp [hc2, hg1]) (by simp [hc2, hg1])
  obtain ⟨h1, h2, h3⟩ := classifyShare_block_accepted env w1 event soloMining
    { jobId := si.jobId, block := si.block,
      noncestr := addExtranonce w.ctx.Extranonce si.noncestr,
      nonceVal := nonceVal, powHash := si.powHash } (getCreateStats env w).2 converted
    hconv hpow hnet hnode hp (hcnt _)
  simp only [WorkStats.counters, Prod.mk.injEq, hc1, hc2, hg1] at h3
  obtain ⟨hb, hs, hd, hst, hi⟩ := h3
  refine ⟨by rw [h2, hc3, hg2], h1, ?_, ?_, hd, hst, hi⟩
  · rw [hb, addInt64_one _ hblo hbhi]
  · rw [hs, addInt64_one _ hslo hshi]

/-- Witness of `HandleSubmit_block_accepted`: nonce `2` on the toy world, with
an accepting node. -/
theorem HandleSubmit_block_accepted_witness :
    (HandleSubmit (demoEnv none) demoWorld (demoEvent "1" "2" demoHash2) false).1.replies =
      demoWorld.replies ++ [Reply.success (demoEvent "1" "2" demoHash2).Id] ∧
    ((HandleSubmit (demoEnv none) demoWorld (demoEvent "1" "2" demoHash2) false).1.heap
        (getCreateStats (demoEnv none) demoWorld).2).BlocksFound =
      ((getCreateStats (demoEnv none) demoWorld).1.heap
        (getCreateStats (demoEnv none) demoWorld).2).BlocksFound + 1 :=
  have h := HandleSubmit_block_accepted (demoEnv none) demoWorld (demoEvent "1" "2" demoHash2)
    false
    { jobId := 1, block := { Header := { BlueScore := 100 }, content := 7 }, noncestr := "2",
      nonceVal := 0, powHash := DomainHash.mk (leBytes 32 2) }
    2 { Nonce := 0, BlueScore := 100, content := 7 }
    (by rfl) (by decide) (by decide) (by rfl) (by decide) (by decide) (by rfl)
    (by decide) (by decide) (by decide) (by decide)
  ⟨h.1, h.2.2.1⟩

/-- Claim C6: when the submit validates, the nonce parses, the stale check
passes and the cached block converts, a claimed proof of work whose big-integer
value differs from the recomputed number makes `HandleSubmit` send the
incorrect-proof-of-work reply (code 26) carrying the recalculated and the
submitted hash; `InvalidShares` of the worker rises by exactly one,
`SharesFound`, `StaleShares` and `BlocksFound` keep their values, and no block
is handed to the node. -/
theorem HandleSubmit_incorrect_pow {F : Type} [Add F] [Zero F] (env : Env) (w : World F)
    (event : JsonRpcEvent) (soloMining : Bool) (si : SubmitInfo) (nonceVal : Nat)
    (converted : DomainBlock)
    (hvalid : (validateSubmit env w event).2 = Except.ok si)
    (hnonce : ParseUintHex64 (addExtranonce w.ctx.Extranonce si.noncestr) = some nonceVal)
    (hfresh : (checkStales w si).2 = none)
    (hconv : env.RPCBlockToDomainBlock si.block (env.hashString si.powHash) = some converted)
    (hpow : toBig si.powHash ≠
      (env.CalculateProofOfWorkValue { converted with Nonce := nonceVal }).1)
    (hlo : -2 ^ 63 ≤ ((getCreateStats env w).1.heap (getCreateStats env w).2).InvalidShares)
    (hhi : ((getCreateStats env w).1.heap (getCreateStats env w).2).InvalidShares < 2 ^ 63 - 1) :
    (HandleSubmit env w event soloMining).1.replies =
      w.replies ++ [Reply.incorrectPow event.Id
        (env.hashString (env.CalculateProofOfWorkValue { converted with Nonce := nonceVal }).2)
        (env.hashString si.powHash)] ∧
    (Reply.incorrectPow event.Id
        (env.hashString (env.CalculateProofOfWorkValue { converted with Nonce := nonceVal }).2)
        (env.hashString si.powHash)).code = some 26 ∧
    ((HandleSubmit env w event soloMining).1.heap (getCreateStats env w).2).InvalidShares =
      ((getCreateStats env w).1.heap (getCreateStats env w).2).InvalidShares + 1 ∧
    ((HandleSubmit env w event soloMining).1.heap (getCreateStats env w).2).SharesFound =
      ((getCreateStats env w).1.heap (getCreateStats env w).2).SharesFound ∧
    ((HandleSubmit env w event soloMining).1.heap (getCreateStats env w).2).StaleShares =
      ((getCreateStats env w).1.heap (getCreateStats env w).2).StaleShares ∧
    ((HandleSubmit env w event soloMining).1.heap (getCreateStats env w).2).BlocksFound =
      ((getCreateStats env w).1.heap (getCreateStats env w).2).BlocksFound ∧
    (HandleSubmit env w event soloMining).1.submitted = w.submitted := by
  have hw := validateSubmit_ok_world env w event si hvalid
  have hst : (checkStales (getCreateStats env w).1
      { jobId := si.jobId, block := si.block,
        noncestr := addExtranonce w.ctx.Extranonce si.noncestr,
        nonceVal := nonceVal, powHash := si.powHash }).2 = none := by
    exact (checkStales_result w _ si _ (getCreateStats_frame env w).2.2.2.2.2 rfl).trans hfresh
  obtain ⟨hc1, hc2, hc3, hc4, hc5, hc6, hc7⟩ := checkStales_frame (getCreateStats env w).1
      { jobId := si.jobId, block := si.block,
        noncestr := addExtranonce w.ctx.Extranonce si.noncestr,
        nonceVal := nonceVal, powHash := si.powHash }
  obtain ⟨hg1, hg2, hg3, hg4, hg5, hg6⟩ := getCreateStats_frame env w
  simp only [HandleSubmit, hw, hvalid, ite_self, hnonce, hst, classifyShare, hconv, hpow,
    if_false, sendReply, addInvalidShare, hc1, hc2, hc3, hc4, hg1, hg2, hg3, heapUpdate_same,
    Reply.code, addInt64_one _ hlo hhi]
  simp

/-- Witness of `HandleSubmit_incorrect_pow`: nonce `5` with the claimed hash of
value `2` on the toy world. -/
theorem HandleSubmit_incorrect_pow_witness :
    (HandleSubmit (demoEnv none) demoWorld (demoEvent "1" "5" demoHash2) false).1.replies =
      demoWorld.replies ++ [Reply.incorrectPow (demoEvent "1" "5" demoHash2).Id
        ((demoEnv none).hashString ((demoEnv none).CalculateProofOfWorkValue
          { Nonce := 5, BlueScore := 100, content := 7 }).2)
        ((demoEnv none).hashString (DomainHash.mk (leBytes 32 2)))] :=
  (HandleSubmit_incorrect_pow (demoEnv none) demoWorld (demoEvent "1" "5" demoHash2)
    false
    { jobId := 1, block := { Header := { BlueScore := 100 }, content := 7 }, noncestr := "5",
      nonceVal := 0, powHash := DomainHash.mk (leBytes 32 2) }
    5 { Nonce := 0, BlueScore := 100, content := 7 }
    (by rfl) (by decide) (by decide) (by rfl) (by decide) (by decide) (by decide)).1

/-- Claim C7, evaluated on the code: for a submit classified as an accepted
share (recomputed proof of work `5`, network target `3`, stratum target `10`)
`HandleSubmit` credits the share and returns no error but calls no reply helper
at all. -/
theorem HandleSubmit_accepted_share_no_reply :
    ((demoEnv none).Target { Nonce := 5, BlueScore := 100, content := 7 } < 5 ∧
      5 < demoWorld.ctx.State.stratumDiff.targetValue) ∧
    (HandleSubmit (demoEnv none) demoWorld (demoEvent "1" "5" demoHash5) false).1.replies = [] ∧
    (HandleSubmit (demoEnv none) demoWorld (demoEvent "1" "5" demoHash5) false).2 = none ∧
    ((HandleSubmit (demoEnv none) demoWorld (demoEvent "1" "5" demoHash5) false).1.heap
      0).SharesFound = 1 := by
  decide

/-- Claim C8 as stated fails: on the toy world a well-formed submit for job `2`,
which is not in the job cache, gets the bad-share reply, no stale-share reply,
and the `StaleShares` counter of the worker keeps its value. -/
theorem HandleSubmit_missing_job_not_stale :
    4 ≤ (demoEvent "2" "5" demoHash5).Params.length ∧
    demoWorld.ctx.State.GetJob 2 = none ∧
    (HandleSubmit (demoEnv none) demoWorld (demoEvent "2" "5" demoHash5) false).1.replies =
      [Reply.badShare (JsonValue.num 1)] ∧
    Reply.staleShare (JsonValue.num 1) ∉
      (HandleSubmit (demoEnv none) demoWorld (demoEvent "2" "5" demoHash5) false).1.replies ∧
    ((HandleSubmit (demoEnv none) demoWorld (demoEvent "2" "5" demoHash5) false).1.heap 0).StaleShares
      = (demoWorld.heap 0).StaleShares := by
  decide

/-- Claim C8, amended: for every submit with at least four parameters whose job
id string parses to an id that is not in the job cache, `HandleSubmit` records a
missing-job worker error and sends the bad-share reply; the heap of worker
stats, the share handler (with the overall counters and the tip), the context
and the list of submitted blocks are unchanged, so no counter moves. -/
theorem HandleSubmit_missing_job_bad_share {F : Type} [Add F] [Zero F] (env : Env) (w : World F)
    (event : JsonRpcEvent) (soloMining : Bool) (jobIdStr : String) (jobId : Int)
    (hlen : 4 ≤ event.Params.length)
    (hparam : event.Params[1]? = some (JsonValue.str jobIdStr))
    (hparse : ParseIntDec jobIdStr = some jobId)
    (hmiss : w.ctx.State.GetJob jobId = none) :
    (HandleSubmit env w event soloMining).1.replies = w.replies ++ [Reply.badShare event.Id] ∧
    (HandleSubmit env w event soloMining).1.metrics =
      w.metrics ++ [Metric.workerError w.ctx.WalletAddr ErrorShortCode.ErrMissingJob] ∧
    (HandleSubmit env w event soloMining).1.heap = w.heap ∧
    (HandleSubmit env w event soloMining).1.sh = w.sh ∧
    (HandleSubmit env w event soloMining).1.ctx = w.ctx ∧
    (HandleSubmit env w event soloMining).1.submitted = w.submitted := by
  have hlt : ¬ event.Params.length < 4 := by omega
  simp [HandleSubmit, validateSubmit, hlt, hparam, hparse, hmiss, sendReply, RecordWorkerError]

/-- Witness of `HandleSubmit_missing_job_bad_share`: job `2` on the toy world. -/
theorem HandleSubmit_missing_job_bad_share_witness :
    (HandleSubmit (demoEnv none) demoWorld (demoEvent "2" "5" demoHash5) false).1.replies =
      demoWorld.replies ++ [Reply.badShare (demoEvent "2" "5" demoHash5).Id] ∧
    (HandleSubmit (demoEnv none) demoWorld (demoEvent "2" "5" demoHash5) false).1.heap =
      demoWorld.heap :=
  have h := HandleSubmit_missing_job_bad_share (demoEnv none) demoWorld (demoEvent "2" "5" demoHash5)
    false "2" 2 (by decide) (by decide) (by decide) (by decide)
  ⟨h.1, h.2.2.1⟩

/-- Claim C9: after `submit`, whatever the node answers, the job id of the
submit is no longer in the job cache of the connection, and the lookup of every
other id gives what it gave before. -/
theorem submit_removes_job {F : Type} [Zero F] (env : Env) (w : World F) (block : DomainBlock)
    (submitInfo : SubmitInfo) (eventId : JsonValue) :
    (submit env w block submitInfo eventId).1.ctx.State.GetJob submitInfo.jobId = none ∧
    ∀ id : Int, (submit env w block submitInfo eventId).1.ctx.State.GetJob id =
      if id = submitInfo.jobId then none else w.ctx.State.GetJob id := by
  rw [submit_ctx]
  refine ⟨?_, fun id => ?_⟩
  · simp [GetJob_RemoveJob]
  · simp [GetJob_RemoveJob]

/-- Claim C10: for a hash of 32 bytes `toBig` is the sum of `b[i] * 256^i`, it is
below `2^256`, and two 32-byte hashes with the same value are equal. -/
theorem toBig_little_endian (h : DomainHash) (hlen : h.bytes.length = 32) :
    toBig h = ∑ i ∈ Finset.range 32, (h.bytes.getD i 0).val * 256 ^ i ∧
    toBig h < 2 ^ 256 ∧
    ∀ h2 : DomainHash, h2.bytes.length = 32 → toBig h2 = toBig h → h2 = h := by
  refine ⟨?_, ?_, ?_⟩
  · rw [toBig_eq_leValue, leValue_eq_sum, hlen]
  · rw [toBig_eq_leValue]
    have := leValue_lt h.bytes
    rw [hlen] at this
    calc leValue h.bytes < 256 ^ 32 := this
      _ = 2 ^ 256 := by norm_num
  · intro h2 hlen2 heq
    rw [toBig_eq_leValue, toBig_eq_leValue] at heq
    have := leValue_injective h2.bytes h.bytes (by rw [hlen, hlen2]) heq
    cases h2; cases h; simp_all

/-- Witness of `toBig_little_endian`: the hash whose first byte is `5`. -/
theorem toBig_little_endian_witness :
    (DomainHash.mk (leBytes 32 5)).bytes.length = 32 ∧
    toBig (DomainHash.mk (leBytes 32 5)) < 2 ^ 256 :=
  ⟨by decide, (toBig_little_endian (DomainHash.mk (leBytes 32 5)) (by decide)).2.1⟩

/-! ## Extranonce padding -/

theorem isHexChar_toNat_le {c : Char} (h : isHexChar c = true) : c.toNat ≤ 122 := by
  unfold isHexChar digitValue at h
  split_ifs at h with h1 h2 h3
  · have : c.toNat ≤ '9'.toNat := h1.2
    exact le_trans this (by decide)
  · have : c.toNat ≤ 'z'.toNat := h2.2
    exact le_trans this (by decide)
  · have : c.toNat ≤ 'Z'.toNat := h3.2
    exact le_trans this (by decide)

theorem isHexChar_utf8Size {c : Char} (h : isHexChar c = true) : c.utf8Size = 1 := by
  have h1 := isHexChar_toNat_le h
  have h2 : c.val ≤ UInt32.ofNatCore 127 (by decide) := by
    show c.val.toNat ≤ 127
    have : c.val.toNat = c.toNat := rfl
    omega
  simp only [Char.utf8Size, h2, if_true]

theorem utf8ByteSize_go_hex (cs : List Char) (h : cs.all isHexChar = true) :
    String.utf8ByteSize.go cs = cs.length := by
  induction cs with
  | nil => rfl
  | cons c cs ih =>
    simp only [List.all_cons, Bool.and_eq_true] at h
    simp only [String.utf8ByteSize.go, ih h.2, isHexChar_utf8Size h.1, List.length_cons]

theorem goLen_hex (s : String) (h : isHexString s = true) : goLen s = s.length := by
  obtain ⟨cs⟩ := s
  exact utf8ByteSize_go_hex cs h

theorem isHexChar_ne_x {c : Char} (h : isHexChar c = true) : c ≠ 'x' := by
  intro hc
  subst hc
  revert h
  decide

theorem digitValue_hex {c : Char} (h : isHexChar c = true) :
    ∃ d, digitValue c = some d ∧ d < 16 := by
  unfold isHexChar at h
  cases hd : digitValue c with
  | none => simp [hd] at h
  | some d => exact ⟨d, rfl, by simpa [hd] using h⟩

theorem parseDigits_hex (cs : List Char) (h : cs.all isHexChar = true) (acc : Nat) :
    parseDigits 16 acc cs = some (cs.foldl (fun a c => a * 16 + (digitValue c).getD 0) acc) := by
  induction cs generalizing acc with
  | nil => rfl
  | cons c cs ih =>
    simp only [List.all_cons, Bool.and_eq_true] at h
    obtain ⟨d, hd, hlt⟩ := digitValue_hex h.1
    simp only [parseDigits, hd, hlt, if_true, List.foldl_cons, Option.getD_some]
    exact ih h.2 _

theorem hexFold_acc (cs : List Char) (acc : Nat) :
    cs.foldl (fun a c => a * 16 + (digitValue c).getD 0) acc =
      acc * 16 ^ cs.length + hexValueChars cs := by
  induction cs generalizing acc with
  | nil => simp [hexValueChars]
  | cons c cs ih =>
    simp only [List.foldl_cons, hexValueChars, List.length_cons]
    rw [ih, ih (0 * 16 + _)]
    ring

theorem hexValueChars_append (a b : List Char) :
    hexValueChars (a ++ b) = hexValueChars a * 16 ^ b.length + hexValueChars b := by
  unfold hexValueChars
  rw [List.foldl_append, hexFold_acc]
  rfl

theorem hexValueChars_zeros (k : Nat) : hexValueChars (List.replicate k '0') = 0 := by
  induction k with
  | zero => rfl
  | succ k ih =>
    rw [List.replicate_succ]
    have := hexValueChars_append ['0'] (List.replicate k '0')
    simp only [List.singleton_append] at this
    have h0 : hexValueChars ['0'] = 0 := by decide
    rw [this, ih, h0]
    simp

theorem hexValueChars_lt (cs : List Char) (h : cs.all isHexChar = true) :
    hexValueChars cs < 16 ^ cs.length := by
  induction cs using List.reverseRecOn with
  | nil => simp [hexValueChars]
  | append_singleton cs c ih =>
    simp only [List.all_append, List.all_cons, List.all_nil, Bool.and_true,
      Bool.and_eq_true] at h
    obtain ⟨d, hd, hlt⟩ := digitValue_hex h.2
    rw [hexValueChars_append, List.length_append]
    have hc : hexValueChars [c] = d := by simp [hexValueChars, hd]
    have := ih h.1
    simp only [hc, List.length_singleton, pow_one, pow_succ]
    omega

theorem stripFront_0x_none (cs : List Char) (h : 'x' ∉ cs) :
    stripFront ['0', 'x'] cs = none := by
  cases cs with
  | nil => rfl
  | cons c cs =>
    cases cs with
    | nil => simp only [stripFront]; split_ifs <;> rfl
    | cons d ds =>
      have hd : ¬ ('x' = d) := fun e => h (by rw [e]; simp)
      simp only [stripFront, hd, if_false]
      split_ifs <;> rfl

theorem replaceFirstChars_0x_id (cs : List Char) (h : 'x' ∉ cs) :
    replaceFirstChars ['0', 'x'] [] cs = cs := by
  induction cs with
  | nil => rfl
  | cons c cs ih =>
    have hrest : 'x' ∉ cs := fun hm => h (List.mem_cons_of_mem _ hm)
    simp only [replaceFirstChars, stripFront_0x_none _ h, ih hrest]

theorem stripFront_0x_hex (cs : List Char) (h : cs.all isHexChar = true) :
    replaceFirstChars ['0', 'x'] [] cs = cs := by
  apply replaceFirstChars_0x_id
  intro hm
  rw [List.all_eq_true] at h
  exact isHexChar_ne_x (h _ hm) rfl

/-- Claim C11: for every extranonce `e` of 2, 4 or 6 hexadecimal characters and
every hexadecimal nonce string `n` with `len(n) <= 16 - len(e)`, the nonce
string that `HandleSubmit` parses is `e`, then `16 - len(e) - len(n)` characters
`0`, then `n`; it is 16 characters (and bytes) long and it parses to
`value(e) * 16^(16 - len(e)) + value(n)`.  Such an `n` is also what
`validateSubmit` keeps of the submitted parameter, since it holds no `0x`. -/
theorem addExtranonce_padded (e n : String)
    (hsize : e.length = 2 ∨ e.length = 4 ∨ e.length = 6)
    (he : isHexString e = true) (hn : isHexString n = true)
    (hlen : goLen n ≤ 16 - goLen e) :
    stringsReplace1 n "0x" "" = n ∧
    addExtranonce e n =
      String.mk (e.data ++ List.replicate (16 - e.length - n.length) '0' ++ n.data) ∧
    (addExtranonce e n).length = 16 ∧
    goLen (addExtranonce e n) = 16 ∧
    ParseUintHex64 (addExtranonce e n) =
      some (hexValue e * 16 ^ (16 - e.length) + hexValue n) := by
  have hge := goLen_hex e he
  have hgn := goLen_hex n hn
  obtain ⟨ecs⟩ := e
  obtain ⟨ncs⟩ := n
  simp only [String.length] at hsize hge hgn
  simp only [isHexString] at he hn
  rw [hge, hgn] at hlen
  have hne : (String.mk ecs) ≠ "" := by
    intro h
    have : ecs = [] := by simpa using congrArg String.data h
    subst this
    simp at hsize
  have hshape : addExtranonce (String.mk ecs) (String.mk ncs) =
      String.mk (ecs ++ List.replicate (16 - ecs.length - ncs.length) '0' ++ ncs) := by
    have hcond : ((ncs.length : Int) ≤ 16 - (ecs.length : Int)) := by omega
    have htn : (16 - (ecs.length : Int)).toNat - ncs.length = 16 - ecs.length - ncs.length := by
      omega
    simp only [addExtranonce, hne, ne_eq, not_false_eq_true, if_true, hge, hgn, hcond,
      sprintfZeroPad, String.length, htn]
    apply String.ext
    simp [List.append_assoc]
  have hall : (ecs ++ List.replicate (16 - ecs.length - ncs.length) '0' ++ ncs).all isHexChar
      = true := by
    simp only [List.all_append, Bool.and_eq_true, he, hn, and_true, true_and]
    rw [List.all_eq_true]
    intro c hc
    rw [List.eq_of_mem_replicate hc]
    decide
  have hlen16 : (ecs ++ List.replicate (16 - ecs.length - ncs.length) '0' ++ ncs).length = 16 := by
    simp only [List.length_append, List.length_replicate]
    omega
  refine ⟨?_, hshape, ?_, ?_, ?_⟩
  · simp only [stringsReplace1]
    exact congrArg String.mk (stripFront_0x_hex ncs hn)
  · rw [hshape]
    exact hlen16
  · rw [hshape, goLen_hex _ (by simpa [isHexString] using hall)]
    exact hlen16
  · rw [hshape]
    have hval : hexValueChars (ecs ++ List.replicate (16 - ecs.length - ncs.length) '0' ++ ncs) =
        hexValueChars ecs * 16 ^ (16 - ecs.length) + hexValueChars ncs := by
      rw [hexValueChars_append, hexValueChars_append, hexValueChars_zeros,
        List.length_replicate]
      have hsplit : 16 ^ (16 - ecs.length) =
          16 ^ (16 - ecs.length - ncs.length) * 16 ^ ncs.length := by
        rw [← pow_add]
        congr 1
        omega
      rw [hsplit]
      ring
    have hlt := hexValueChars_lt _ hall
    rw [hlen16] at hlt
    have hp := parseDigits_hex _ hall 0
    rw [hexFold_acc, zero_mul, zero_add, hval] at hp
    rw [hval] at hlt
    simp only [ParseUintHex64, hexValue]
    cases hcs : ecs ++ List.replicate (16 - ecs.length - ncs.length) '0' ++ ncs with
    | nil => rw [hcs] at hlen16; simp at hlen16
    | cons c cs =>
      rw [hcs] at hp
      simp only [hp]
      have : hexValueChars ecs * 16 ^ (16 - ecs.length) + hexValueChars ncs < 2 ^ 64 := by
        calc _ < 16 ^ 16 := hlt
          _ = 2 ^ 64 := by norm_num
      rw [if_pos this]
      rfl

/-- Witness of `addExtranonce_padded`: extranonce `ab` and nonce `1234` give
`ab00000000001234`. -/
theorem addExtranonce_padded_witness :
    addExtranonce "ab" "1234" = "ab00000000001234" ∧
    ParseUintHex64 (addExtranonce "ab" "1234") =
      some (hexValue "ab" * 16 ^ (16 - "ab".length) + hexValue "1234") :=
  have h := addExtranonce_padded "ab" "1234" (by decide) (by decide) (by decide) (by decide)
  ⟨h.2.1.trans (by decide), h.2.2.2.2⟩

/-! ## Wallet normalisation -/

theorem startsWith_append (p x : List Nat) : startsWith (p ++ x) p = true := by
  induction p with
  | nil => cases x <;> rfl
  | cons a p ih => simp [startsWith, ih]

/-- What `CleanWallet` returns on an input that carries one of the two markers, so that no
retry happens. -/
theorem CleanWalletFuel_marked (DecodeAddress : List Nat → AddressNet → Bool) (n : Nat)
    (c : List Nat)
    (hc : startsWith c (asciiBytes "hoosat:") = true ∨
      startsWith c (asciiBytes "hoosattest:") = true) :
    CleanWalletFuel DecodeAddress (n + 1) c =
      some (if decodesEither DecodeAddress c then Except.ok c
        else if walletRegexMatch c && decide (61 ≤ c.length) then Except.ok (c.take 61)
        else Except.error errCoerceWallet) := by
  have hno : (!startsWith c (asciiBytes "hoosat:") && !startsWith c (asciiBytes "hoosattest:"))
      = false := by
    rcases hc with h | h <;> simp [h]
  simp only [CleanWalletFuel, hno, decodesEither]
  by_cases h1 : DecodeAddress c AddressNet.hoosat = true
  · simp [h1]
  · by_cases h2 : DecodeAddress c AddressNet.hoosattest = true
    · simp [h1, h2]
    · by_cases h3 : walletRegexMatch c = true
      · by_cases h4 : 61 ≤ c.length
        · simp [h1, h2, h3, h4]
        · simp [h1, h2, h3, h4]
      · simp [h1, h2, h3]

/-- Claim C13: `CleanWallet` returns what its description says.  With `c` the
input itself when it decodes or already starts with `hoosat:` or `hoosattest:`,
and `hoosat:` followed by the input otherwise, the result is `c` verbatim when
`c` decodes under either marker, else the first 61 bytes of `c` when the
pattern `(hoosat|hoosattest):[a-z0-9]+` matches somewhere in `c` and `c` has at
least 61 bytes, else the error.  Two levels of recursion always suffice: every
larger bound gives the same result. -/
theorem CleanWallet_cases (DecodeAddress : List Nat → AddressNet → Bool) (x : List Nat)
    (n : Nat) :
    CleanWalletFuel DecodeAddress (n + 2) x = some (cleanWalletSpec DecodeAddress x) ∧
    CleanWallet DecodeAddress x = some (cleanWalletSpec DecodeAddress x) := by
  have key : ∀ m : Nat,
      CleanWalletFuel DecodeAddress (m + 2) x = some (cleanWalletSpec DecodeAddress x) := by
    intro m
    by_cases h1 : DecodeAddress x AddressNet.hoosat = true
    · simp [CleanWalletFuel, cleanWalletSpec, walletCandidate, decodesEither, h1]
    · by_cases h2 : DecodeAddress x AddressNet.hoosattest = true
      · simp [CleanWalletFuel, cleanWalletSpec, walletCandidate, decodesEither, h1, h2]
      · simp only [Bool.not_eq_true] at h1 h2
        by_cases h3 : startsWith x (asciiBytes "hoosat:") = true
        · rw [CleanWalletFuel_marked _ _ _ (Or.inl h3)]
          simp [cleanWalletSpec, walletCandidate, decodesEither, h1, h2, h3]
        · by_cases h4 : startsWith x (asciiBytes "hoosattest:") = true
          · rw [CleanWalletFuel_marked _ _ _ (Or.inr h4)]
            simp [cleanWalletSpec, walletCandidate, decodesEither, h1, h2, h4]
          · simp only [Bool.not_eq_true] at h3 h4
            have hstep : CleanWalletFuel DecodeAddress (m + 2) x =
                CleanWalletFuel DecodeAddress (m + 1) (asciiBytes "hoosat:" ++ x) := by
              simp [CleanWalletFuel, h1, h2, h3, h4]
            rw [hstep, CleanWalletFuel_marked _ _ _ (Or.inl (startsWith_append _ _))]
            simp [cleanWalletSpec, walletCandidate, decodesEither, h1, h2, h3, h4]
  exact ⟨key n, key 0⟩

theorem clearedLoop_counter {F : Type} (ops : FloatOps F) (r : F) :
    ∀ (n i : Nat), i + n ≤ 7 →
      i ≤ (clearedLoop ops r n i).1 ∧
      ((clearedLoop ops r n i).2 = false → (clearedLoop ops r n i).1 = i + n) := by
  intro n
  induction n with
  | zero => intro i _; simp [clearedLoop]
  | succ n ih =>
    intro i hi
    have hlen : (tolerances ops).length = 7 := rfl
    have hlt : i < (tolerances ops).length := by omega
    simp only [clearedLoop, List.getElem?_eq_getElem hlt]
    split_ifs with hb
    · simp
    · obtain ⟨h1, h2⟩ := ih (i + 1) (by omega)
      exact ⟨by omega, fun h => by rw [h2 h]; omega⟩

theorem windows_stage (k : Nat) (hk : k < 6) :
    ∃ window, windows[k]? = some window ∧ window ≠ 0 := by
  interval_cases k <;> exact ⟨_, rfl, by decide⟩

theorem tolerances_stage {F : Type} (ops : FloatOps F) (k : Nat) (hk : k ≤ 6) :
    ∃ tolerance, (tolerances ops)[k]? = some tolerance := by
  have hlt : k < (tolerances ops).length := by
    have : (tolerances ops).length = 7 := rfl
    omega
  exact ⟨_, List.getElem?_eq_getElem hlt⟩

/-- The upper breach for one worker: in a stage below the last, with the tracker active, shares
at or above the upper bound of the stage make the body store `diff * ratio` and disable the
tracker. -/
theorem vardiffWorker_upper_breach {F : Type} (ops : FloatOps F) (expectedShareRate : Nat)
    (minutesSince : Nat → F) (v : WorkStats F) (window : Nat) (tolerance : F)
    (hactive : v.VarDiffStartTime ≠ 0)
    (hlo : 0 ≤ v.VarDiffWindow) (hhi : v.VarDiffWindow < 6)
    (hwindow : windows[v.VarDiffWindow.toNat]? = some window)
    (htol : (tolerances ops)[v.VarDiffWindow.toNat]? = some tolerance)
    (hbreach : ops.le (upperBound ops expectedShareRate window tolerance)
      (ops.ofInt v.VarDiffSharesFound) = true) :
    vardiffWorker ops expectedShareRate minutesSince v =
      some { v with
        VarDiffStartTime := 0, VarDiffWindow := 0,
        MinDiff := ops.mul v.MinDiff (shareRateRatio ops expectedShareRate minutesSince v) } := by
  have hk : v.VarDiffWindow.toNat < 6 := by omega
  obtain ⟨window2, hw2, hne⟩ := windows_stage _ hk
  rw [hwindow] at hw2
  have hwne : window ≠ 0 := by
    have : window = window2 := by injection hw2
    rw [this]; exact hne
  have hneg : ¬ v.VarDiffWindow < 0 := by omega
  obtain ⟨hc1, hc2⟩ := clearedLoop_counter ops
    (shareRateRatio ops expectedShareRate minutesSince v) (v.VarDiffWindow.toNat - 1) 1
    (by omega)
  unfold upperBound at hbreach
  simp only [vardiffWorker, hactive, if_false, hneg, hwindow, htol, hwne]
  simp only [shareRateRatio] at hc1 hc2 ⊢
  cases hloop : (clearedLoop ops
      (ops.div (ops.div (ops.ofInt v.VarDiffSharesFound) (minutesSince v.VarDiffStartTime))
        (ops.ofInt expectedShareRate)) (v.VarDiffWindow.toNat - 1) 1).2 with
  | true =>
    have hnot : ¬ (((clearedLoop ops
      (ops.div (ops.div (ops.ofInt v.VarDiffSharesFound) (minutesSince v.VarDiffStartTime))
        (ops.ofInt expectedShareRate)) (v.VarDiffWindow.toNat - 1) 1).1 : Int) < 0) := by omega
    simp only [if_true, updateVarDiff, hnot, if_false, hbreach]
  | false =>
    have heq := hc2 hloop
    have hnot : ¬ (((clearedLoop ops
      (ops.div (ops.div (ops.ofInt v.VarDiffSharesFound) (minutesSince v.VarDiffStartTime))
        (ops.ofInt expectedShareRate)) (v.VarDiffWindow.toNat - 1) 1).1 : Int) <
        v.VarDiffWindow) := by
      rw [heq]; omega
    simp only [Bool.false_eq_true, if_false, hnot, hbreach, if_true, updateVarDiff]

/-- With the stage index within `0..6` the body of the controller loop does not fail. -/
theorem vardiffWorker_defined {F : Type} (ops : FloatOps F) (expectedShareRate : Nat)
    (minutesSince : Nat → F) (v : WorkStats F)
    (hlo : 0 ≤ v.VarDiffWindow) (hhi : v.VarDiffWindow ≤ 6) :
    ∃ v2, vardiffWorker ops expectedShareRate minutesSince v = some v2 := by
  have hk : v.VarDiffWindow.toNat < windows.length := by
    have : windows.length = 7 := rfl
    omega
  obtain ⟨tolerance, htol⟩ := tolerances_stage ops v.VarDiffWindow.toNat (by omega)
  have hneg : ¬ v.VarDiffWindow < 0 := by omega
  simp only [vardiffWorker, hneg, if_false, List.getElem?_eq_getElem hk, htol]
  split_ifs <;> exact ⟨_, rfl⟩

/-- A controller pass applies the body of the loop to every worker of the stats map, when the
map holds pairwise different pointers and the body fails for none of them. -/
theorem vardiffPassOver_heap {F : Type} (ops : FloatOps F) (expectedShareRate : Nat)
    (minutesSince : Nat → F) :
    ∀ (l : List (String × Nat)) (w : World F), (l.map Prod.snd).Nodup →
      (∀ e ∈ l, ∃ v2, vardiffWorker ops expectedShareRate minutesSince (w.heap e.2) = some v2) →
      ∃ w2, vardiffPassOver ops expectedShareRate minutesSince l w = some w2 ∧
        (∀ e ∈ l, vardiffWorker ops expectedShareRate minutesSince (w.heap e.2) =
          some (w2.heap e.2)) ∧
        (∀ q, q ∉ l.map Prod.snd → w2.heap q = w.heap q) ∧
        w2.sh = w.sh ∧ w2.ctx = w.ctx := by
  intro l
  induction l with
  | nil =>
    intro w _ _
    exact ⟨w, rfl, fun e he => absurd he (List.not_mem_nil e), fun _ _ => rfl, rfl, rfl⟩
  | cons e rest ih =>
    intro w hnd hok
    simp only [List.map_cons, List.nodup_cons] at hnd
    obtain ⟨v, hv⟩ := hok e (List.mem_cons_self _ _)
    have hother : ∀ e2 ∈ rest, e2.2 ≠ e.2 := by
      intro e2 he2 heq
      exact hnd.1 (by rw [← heq]; exact List.mem_map_of_mem _ he2)
    obtain ⟨w2, hw2, hheap, hframe, hsh, hctx⟩ :=
      ih { w with heap := heapUpdate w.heap e.2 (fun _ => v) } hnd.2 (by
        intro e2 he2
        simp only [heapUpdate, hother e2 he2, if_false]
        exact hok e2 (List.mem_cons_of_mem _ he2))
    refine ⟨w2, by simp only [vardiffPassOver, hv, hw2], ?_, ?_, hsh, hctx⟩
    · intro e2 he2
      rcases List.mem_cons.mp he2 with h | h
      · subst h
        rw [hframe _ hnd.1, hv]
        simp [heapUpdate]
      · have := hheap e2 h
        simp only [heapUpdate, hother e2 h, if_false] at this
        exact this
    · intro q hq
      simp only [List.map_cons, List.mem_cons, not_or] at hq
      rw [hframe q hq.2]
      simp [heapUpdate, hq.1]

/-- The rounding to `float64` at known values: the literals `0.1` and `1/3`, the
sum `1 + 0.1`, two ties between neighbours (`2^53 + 1` goes down to the even
`2^53`, `2^53 + 3` up to `2^53 + 4`), and a number of the format, which is kept. -/
theorem roundFloat64_samples :
    float64Ops.lit 1 10 = ExactFloat.fin 3602879701896397 36028797018963968 ∧
    float64Ops.lit 1 3 = ExactFloat.fin 6004799503160661 18014398509481984 ∧
    float64Ops.add (float64Ops.lit 1 1) (float64Ops.lit 1 10) =
      ExactFloat.fin 2476979795053773 2251799813685248 ∧
    roundFloat64 (ExactFloat.fin (2 ^ 53 + 1) 1) = ExactFloat.fin (2 ^ 53) 1 ∧
    roundFloat64 (ExactFloat.fin (2 ^ 53 + 3) 1) = ExactFloat.fin (2 ^ 53 + 4) 1 ∧
    roundFloat64 (ExactFloat.fin (-990) 1) = ExactFloat.fin (-990) 1 ∧
    roundFloat64 (float64Ops.lit 1 10) = float64Ops.lit 1 10 := by
  decide

/-- Claim C17 as stated fails: at target 15 a worker in stage 4 (window 60,
tolerance 0.10) with 990 shares meets the threshold `60 * 15 * 1.10 = 990` and
no tolerance of an earlier stage is breached, but in `float64` the sum
`1 + 0.1` and the product are rounded to `990 + 2^-43`, so the comparison of the
code fails: after 60 minutes the pass moves the worker to stage 5 and after 59
minutes it changes nothing; the minimum difficulty stays `4` in both. -/
theorem vardiffPass_upper_breach_rounded :
    windows[4]? = some 60 ∧
    (tolerances float64Ops)[4]? = some (float64Ops.lit 1 10) ∧
    exactOps.le (upperBound exactOps 15 60 (exactOps.lit 1 10)) (exactOps.ofInt 990) = true ∧
    clearedLoop float64Ops
        (shareRateRatio float64Ops 15 (demoMinutesSince 4600)
          (demoTracker 4 990 (ExactFloat.fin 4 1))) 3 1 = (4, false) ∧
    upperBound float64Ops 15 60 (float64Ops.lit 1 10) =
      ExactFloat.ofFrac (990 * 2 ^ 43 + 1) (2 ^ 43) ∧
    float64Ops.le (upperBound float64Ops 15 60 (float64Ops.lit 1 10)) (float64Ops.ofInt 990) =
      false ∧
    (vardiffPass float64Ops 15 (demoMinutesSince 4600)
        (demoVarWorld (demoTracker 4 990 (ExactFloat.fin 4 1)))).map (fun w => w.heap 0) =
      some (demoTracker 5 990 (ExactFloat.fin 4 1)) ∧
    (vardiffPass float64Ops 15 (demoMinutesSince 4540)
        (demoVarWorld (demoTracker 4 990 (ExactFloat.fin 4 1)))).map (fun w => w.heap 0) =
      some (demoTracker 4 990 (ExactFloat.fin 4 1)) := by
  decide

/-- Claim C17, amended: in one controller pass, a worker with an active tracker
in a stage below the last whose share count, converted to `float64`, is at or
above the bound that the code computes in the arithmetic `ops` of `float64`,
`float64(window * target) * (1 + tolerance)` with every operation rounded, gets
`diff * ratio` as its new minimum difficulty, with
`ratio = (shares / elapsed_minutes) / target` computed in the same arithmetic,
and its tracker is disabled; neither the elapsed time nor the tolerances of
earlier stages matter.  The stats map is taken to hold pairwise different
pointers and stage indices within `0..6`. -/
theorem vardiffPass_upper_breach {F : Type} (ops : FloatOps F) (expectedShareRate : Nat)
    (minutesSince : Nat → F) (w : World F) (key : String) (p : Nat) (window : Nat)
    (tolerance : F)
    (hmap : (w.sh.stats.map Prod.snd).Nodup)
    (hrange : ∀ e ∈ w.sh.stats, 0 ≤ (w.heap e.2).VarDiffWindow ∧ (w.heap e.2).VarDiffWindow ≤ 6)
    (hworker : (key, p) ∈ w.sh.stats)
    (hactive : (w.heap p).VarDiffStartTime ≠ 0)
    (hstage : (w.heap p).VarDiffWindow < 6)
    (hwindow : windows[(w.heap p).VarDiffWindow.toNat]? = some window)
    (htol : (tolerances ops)[(w.heap p).VarDiffWindow.toNat]? = some tolerance)
    (hbreach : ops.le (upperBound ops expectedShareRate window tolerance)
      (ops.ofInt (w.heap p).VarDiffSharesFound) = true) :
    ∃ w2, vardiffPass ops expectedShareRate minutesSince w = some w2 ∧
      w2.heap p =
        { w.heap p with
          VarDiffStartTime := 0, VarDiffWindow := 0,
          MinDiff := ops.mul (w.heap p).MinDiff
            (shareRateRatio ops expectedShareRate minutesSince (w.heap p)) } := by
  obtain ⟨w2, hw2, hheap, _, _, _⟩ := vardiffPassOver_heap ops expectedShareRate minutesSince
    w.sh.stats w hmap (fun e he =>
      vardiffWorker_defined ops expectedShareRate minutesSince _ (hrange e he).1 (hrange e he).2)
  refine ⟨w2, hw2, ?_⟩
  have h1 := hheap (key, p) hworker
  rw [vardiffWorker_upper_breach ops expectedShareRate minutesSince (w.heap p) window tolerance
    hactive (hrange _ hworker).1 hstage hwindow htol hbreach] at h1
  exact (Option.some.inj h1).symm

/-- Witness of `vardiffPass_upper_breach` in the arithmetic of `float64`:
target 15, stage 0, 60 shares in exactly one minute at difficulty 4 give the
minimum difficulty 16; and in stage 4, where 990 shares do not reach the
rounded bound, 991 shares do. -/
theorem vardiffPass_upper_breach_witness :
    (∃ w2, vardiffPass float64Ops 15 (demoMinutesSince 1060)
        (demoVarWorld (demoTracker 0 60 (ExactFloat.fin 4 1))) = some w2 ∧
      (w2.heap 0).MinDiff = ExactFloat.fin 16 1 ∧ (w2.heap 0).VarDiffStartTime = 0) ∧
    (vardiffPass float64Ops 15 (demoMinutesSince 4540)
        (demoVarWorld (demoTracker 4 991 (ExactFloat.fin 4 1)))).map
      (fun w => ((w.heap 0).VarDiffStartTime, (w.heap 0).VarDiffWindow, (w.heap 0).MinDiff)) =
      some (0, 0, float64Ops.mul (ExactFloat.fin 4 1)
        (shareRateRatio float64Ops 15 (demoMinutesSince 4540)
          (demoTracker 4 991 (ExactFloat.fin 4 1)))) := by
  obtain ⟨w2, h1, h2⟩ := vardiffPass_upper_breach float64Ops 15 (demoMinutesSince 1060)
    (demoVarWorld (demoTracker 0 60 (ExactFloat.fin 4 1))) "w1" 0 1 (ExactFloat.fin 1 1)
    (by decide) (by decide) (by decide) (by decide) (by decide) (by decide) (by decide)
    (by decide)
  refine ⟨⟨w2, h1, ?_, ?_⟩, by decide⟩
  · rw [h2]; decide
  · rw [h2]

/-- Claim C14, evaluated on the code: a worker in stage 1 with 60 shares in two
minutes at target 15 has ratio 2, so `|1 - ratio| = 1` reaches the tolerance
`1.00` of stage 0; the controller pass leaves its minimum difficulty, its start
time and its stage as they were. -/
theorem vardiffPass_stage_one_skips_stage_zero :
    exactOps.le (exactOps.lit 1 1)
      (exactOps.abs (exactOps.sub (exactOps.lit 1 1)
        (shareRateRatio exactOps 15 (demoMinutesSince 1120)
          (demoTracker 1 60 (ExactFloat.fin 4 1))))) = true ∧
    (vardiffPass exactOps 15 (demoMinutesSince 1120)
        (demoVarWorld (demoTracker 1 60 (ExactFloat.fin 4 1)))).map (fun w => w.heap 0) =
      some (demoTracker 1 60 (ExactFloat.fin 4 1)) := by
  decide

/-- Claim C15, evaluated on the code: `setClientVardiff` with a difficulty of
`0.000001` stores the clamped `0.00001`; a controller pass one minute later,
with no share in the window, stores `0.00001 * max(0, 0.1) = 0.000001`, which is
below `0.00001`. -/
theorem vardiffPass_below_clamp :
    ((setClientVardiff exactOps (demoEnv none)
        (demoVarWorld (demoTracker 0 0 (ExactFloat.fin 4 1)))
        (ExactFloat.ofFrac 1 1000000)).1.heap 0).MinDiff = exactOps.lit 1 100000 ∧
    (vardiffPass exactOps 15 (demoMinutesSince 1700000060)
        (setClientVardiff exactOps (demoEnv none)
          (demoVarWorld (demoTracker 0 0 (ExactFloat.fin 4 1)))
          (ExactFloat.ofFrac 1 1000000)).1).map (fun w => (w.heap 0).MinDiff) =
      some (ExactFloat.ofFrac 1 1000000) ∧
    exactOps.le (exactOps.lit 1 100000) (ExactFloat.ofFrac 1 1000000) = false := by
  decide

/-- Claim C16 as stated fails: after `updateVarDiff` on a worker with five shares
in its window, `VarDiffSharesFound` is still five. -/
theorem updateVarDiff_keeps_shares :
    ((updateVarDiff (demoTracker 2 5 (ExactFloat.fin 4 1)) (ExactFloat.fin 8 1)).1).VarDiffSharesFound
      = 5 := by
  decide

/-- Claim C16, amended: immediately after `updateVarDiff` the start time of the
tracker is the zero time (tracker disabled), the stage is `0` and the minimum
difficulty is the new one, while `VarDiffSharesFound` keeps its value; it is
`startVarDiff`, the restart of the tracker, that sets `VarDiffSharesFound` to
zero. -/
theorem updateVarDiff_reset {F : Type} (stats : WorkStats F) (minDiff : F) (now : Nat) :
    (updateVarDiff stats minDiff).1.VarDiffStartTime = 0 ∧
    (updateVarDiff stats minDiff).1.VarDiffWindow = 0 ∧
    (updateVarDiff stats minDiff).1.MinDiff = minDiff ∧
    (updateVarDiff stats minDiff).1.VarDiffSharesFound = stats.VarDiffSharesFound ∧
    (startVarDiff now (updateVarDiff stats minDiff).1).VarDiffSharesFound = 0 ∧
    (startVarDiff now (updateVarDiff stats minDiff).1).VarDiffStartTime = now := by
  simp [updateVarDiff, startVarDiff]

/-! ## The ban list -/

theorem AddressBanned_eq_banTimes (bans : List BanInfo) (a : String) :
    AddressBanned bans a =
      (match banTimes bans a with
       | some t => decide (10 < t)
       | none => false) := by
  induction bans with
  | nil => rfl
  | cons ban rest ih =>
    simp only [AddressBanned, banTimes]
    split_ifs with h1 h2
    · simp [h2]
    · simp [h2]
    · exact ih

theorem banTimes_TryToBan (bans : List BanInfo) (a b : String) :
    banTimes (TryToBan bans a) b =
      if b = a then
        some (match banTimes bans a with
          | some t => addInt64 t 1
          | none => 1)
      else banTimes bans b := by
  induction bans with
  | nil =>
    simp only [TryToBan, banTimes]
    by_cases h : b = a
    · simp [h]
    · have : ¬ a = b := fun e => h e.symm
      simp [h, this]
  | cons ban rest ih =>
    simp only [TryToBan]
    by_cases h1 : ban.Address = a
    · simp only [h1, if_true, banTimes]
      by_cases h : b = a
      · simp [h]
      · have : ¬ a = b := fun e => h e.symm
        simp [h, this]
    · simp only [h1, if_false, banTimes]
      by_cases h2 : ban.Address = b
      · have hne : ¬ b = a := fun e => h1 (h2.trans e)
        simp [h2, hne]
      · simp only [h2, if_false]
        exact ih

theorem TryToBan_addresses (bans : List BanInfo) (a : String) :
    (TryToBan bans a).map BanInfo.Address =
      if a ∈ bans.map BanInfo.Address then bans.map BanInfo.Address
      else bans.map BanInfo.Address ++ [a] := by
  induction bans with
  | nil => simp [TryToBan]
  | cons ban rest ih =>
    simp only [TryToBan]
    by_cases h1 : ban.Address = a
    · simp [h1]
    · have h1b : ¬ a = ban.Address := fun e => h1 e.symm
      simp only [h1, if_false, List.map_cons, ih, List.mem_cons, h1b, false_or]
      split_ifs <;> simp

theorem TryToBan_nodup (bans : List BanInfo) (a : String)
    (h : (bans.map BanInfo.Address).Nodup) : ((TryToBan bans a).map BanInfo.Address).Nodup := by
  rw [TryToBan_addresses]
  split_ifs with hm
  · exact h
  · exact List.Nodup.append h (List.nodup_singleton a) (by
      intro x hx hx2
      rw [List.mem_singleton] at hx2
      exact hm (hx2 ▸ hx))

theorem tryToBanAll_concat (calls : List String) (a : String) :
    tryToBanAll (calls ++ [a]) = TryToBan (tryToBanAll calls) a := by
  simp [tryToBanAll, List.foldl_append]

theorem tryToBanAll_times (calls : List String) (hlen : calls.length < 2 ^ 63) (a : String) :
    banTimes (tryToBanAll calls) a =
      if calls.count a = 0 then none else some (calls.count a : Int) := by
  induction calls using List.reverseRecOn with
  | nil => rfl
  | append_singleton calls c ih =>
    rw [List.length_append, List.length_singleton] at hlen
    have ih2 := ih (by omega)
    have hcnt : calls.count a ≤ calls.length := List.count_le_length _ _
    rw [tryToBanAll_concat, banTimes_TryToBan, List.count_append]
    by_cases hc : a = c
    · subst hc
      simp only [if_true, ih2, List.count_singleton_self]
      by_cases h0 : calls.count a = 0
      · simp [h0]
      · simp only [h0, if_false]
        rw [addInt64_one _ (by omega) (by omega)]
        simp
    · have hc2 : ¬ c = a := fun e => hc e.symm
      have : List.count a [c] = 0 := by
        rw [List.count_eq_zero]
        simpa using hc
      simp only [hc, if_false, ih2, this, Nat.add_zero]

theorem tryToBanAll_nodup (calls : List String) :
    ((tryToBanAll calls).map BanInfo.Address).Nodup := by
  induction calls using List.reverseRecOn with
  | nil => exact List.nodup_nil
  | append_singleton calls c ih =>
    rw [tryToBanAll_concat]
    exact TryToBan_nodup _ _ ih

/-- Claim C18: after any sequence of fewer than `2^63` calls of `TryToBan` from
the empty ban list, `AddressBanned a` holds exactly when `TryToBan a` was called
more than 10 times; the list holds no two entries for one address; and a
further `TryToBan a` leaves `AddressBanned b` as it was for every `b` other
than `a`. -/
theorem TryToBan_threshold (calls : List String) (hlen : calls.length < 2 ^ 63) :
    (∀ a : String, AddressBanned (tryToBanAll calls) a = decide (10 < calls.count a)) ∧
    ((tryToBanAll calls).map BanInfo.Address).Nodup ∧
    (∀ a b : String, b ≠ a →
      AddressBanned (TryToBan (tryToBanAll calls) a) b = AddressBanned (tryToBanAll calls) b) := by
  refine ⟨?_, tryToBanAll_nodup calls, ?_⟩
  · intro a
    rw [AddressBanned_eq_banTimes, tryToBanAll_times calls hlen a]
    by_cases h0 : calls.count a = 0
    · simp [h0]
    · simp only [h0, if_false]
      congr 1
      apply propext
      exact Int.ofNat_lt (n := 10)
  · intro a b hne
    rw [AddressBanned_eq_banTimes, AddressBanned_eq_banTimes, banTimes_TryToBan, if_neg hne]

/-- Witness of `TryToBan_threshold`: eleven calls for `a` and ten for `b` ban `a`
and not `b`. -/
theorem TryToBan_threshold_witness :
    AddressBanned (tryToBanAll (List.replicate 11 "a" ++ List.replicate 10 "b")) "a" = true ∧
    AddressBanned (tryToBanAll (List.replicate 11 "a" ++ List.replicate 10 "b")) "b" = false :=
  have h := TryToBan_threshold (List.replicate 11 "a" ++ List.replicate 10 "b")
    (by simp)
  ⟨(h.1 "a").trans (by simp [List.count_replicate]),
    (h.1 "b").trans (by simp [List.count_replicate])⟩

/-! ## Re-keying of the statistics registry -/

theorem mapGet_none_not_mem (m : List (String × Nat)) (k : String) (h : mapGet m k = none) :
    ∀ e ∈ m, e.1 ≠ k := by
  induction m with
  | nil => intro e he; exact absurd he (List.not_mem_nil e)
  | cons x m ih =>
    obtain ⟨a, b⟩ := x
    simp only [mapGet, List.lookup_cons] at h ih
    by_cases hk : k = a
    · subst hk; simp at h
    · have hb : (k == a) = false := by simpa using hk
      rw [hb] at h
      intro e he
      rcases List.mem_cons.mp he with h1 | h1
      · subst h1; exact fun e2 => hk e2.symm
      · exact ih h e h1

theorem mapDelete_of_none (m : List (String × Nat)) (k : String) (h : mapGet m k = none) :
    mapDelete m k = m := by
  unfold mapDelete
  rw [List.filter_eq_self]
  intro e he
  simpa using mapGet_none_not_mem m k h e he

theorem mapDelete_length (m : List (String × Nat)) (k : String) (v : Nat)
    (hnd : (m.map Prod.fst).Nodup) (h : mapGet m k = some v) :
    (mapDelete m k).length + 1 = m.length := by
  induction m with
  | nil => simp [mapGet] at h
  | cons x m ih =>
    obtain ⟨a, b⟩ := x
    simp only [List.map_cons, List.nodup_cons] at hnd
    by_cases hk : a = k
    · subst hk
      have hrest : mapDelete m a = m := by
        unfold mapDelete
        rw [List.filter_eq_self]
        intro e he
        have : e.1 ≠ a := fun e2 => hnd.1 (by rw [← e2]; exact List.mem_map_of_mem _ he)
        simpa using this
      have : mapDelete ((a, b) :: m) a = mapDelete m a := by
        simp [mapDelete, List.filter_cons]
      rw [this, hrest, List.length_cons]
    · have hb : (k == a) = false := by simpa using fun e : k = a => hk e.symm
      simp only [mapGet, List.lookup_cons, hb] at h
      have := ih hnd.2 h
      have hcons : mapDelete ((a, b) :: m) k = (a, b) :: mapDelete m k := by
        simp [mapDelete, List.filter_cons, hk]
      rw [hcons, List.length_cons, List.length_cons, this]

/-- Claim C19: when the stats map (with pairwise different keys) has an entry
under the remote address of the connection and none under its non-empty worker
name, `getCreateStats` returns the pointer of that entry, the remote-address key
is gone, the worker name is mapped to the same object, whose `WorkerName` is now
the worker name and whose other fields (all counters) are unchanged, no other
object changes, none is created and the map has as many entries as before.  An
entry keyed by the worker name is returned first, whatever the remote address
maps to, and the world is left as it is. -/
theorem getCreateStats_rekey {F : Type} [Zero F] (env : Env) (w : World F) (p : Nat)
    (hkeys : (w.sh.stats.map Prod.fst).Nodup)
    (hname : w.ctx.WorkerName ≠ "")
    (hnone : mapGet w.sh.stats w.ctx.WorkerName = none)
    (hremote : mapGet w.sh.stats w.ctx.RemoteAddr = some p) :
    (getCreateStats env w).2 = p ∧
    mapGet (getCreateStats env w).1.sh.stats w.ctx.RemoteAddr = none ∧
    mapGet (getCreateStats env w).1.sh.stats w.ctx.WorkerName = some p ∧
    (getCreateStats env w).1.heap p = { w.heap p with WorkerName := w.ctx.WorkerName } ∧
    (∀ q : Nat, q ≠ p → (getCreateStats env w).1.heap q = w.heap q) ∧
    (getCreateStats env w).1.sh.stats.length = w.sh.stats.length ∧
    ((getCreateStats env w).1.heap p).counters = (w.heap p).counters ∧
    (getCreateStats env w).1.heapNext = w.heapNext ∧
    (∀ (w2 : World F) (q : Nat), w2.ctx.WorkerName ≠ "" →
      mapGet w2.sh.stats w2.ctx.WorkerName = some q → getCreateStats env w2 = (w2, q)) := by
  have hdiff : w.ctx.RemoteAddr ≠ w.ctx.WorkerName := by
    intro e
    rw [e, hnone] at hremote
    cases hremote
  have hstats : (getCreateStats env w).1.sh.stats =
      mapSet (mapDelete w.sh.stats w.ctx.RemoteAddr) w.ctx.WorkerName p := by
    simp [getCreateStats, hname, hnone, hremote]
  have hheap : (getCreateStats env w).1.heap =
      heapUpdate w.heap p (fun s => { s with WorkerName := w.ctx.WorkerName }) := by
    simp [getCreateStats, hname, hnone, hremote]
  have hnone2 : mapGet (mapDelete w.sh.stats w.ctx.RemoteAddr) w.ctx.WorkerName = none := by
    rw [mapGet_mapDelete_ne _ _ _ (fun e => hdiff e.symm)]
    exact hnone
  refine ⟨?_, ?_, ?_, ?_, ?_, ?_, ?_, ?_, ?_⟩
  · simp [getCreateStats, hname, hnone, hremote]
  · rw [hstats, mapGet_mapSet_ne _ _ _ _ hdiff]
    exact lookup_filter_self _ _
  · rw [hstats, mapGet_mapSet_self]
  · rw [hheap, heapUpdate_same]
  · intro q hq
    rw [hheap, heapUpdate_other _ _ _ _ hq]
  · rw [hstats]
    simp only [mapSet, List.length_cons, mapDelete_of_none _ _ hnone2]
    exact mapDelete_length _ _ _ hkeys hremote
  · rw [hheap, heapUpdate_same]
    rfl
  · simp [getCreateStats, hname, hnone, hremote]
  · intro w2 q hn hq
    simp [getCreateStats, hn, hq]

/-- Witness of `getCreateStats_rekey`: the toy world with the stats entry of
worker `w1` still keyed by the remote address. -/
theorem getCreateStats_rekey_witness :
    (getCreateStats (demoEnv none)
        { demoWorld with sh := { demoWorld.sh with stats := [("10.0.0.1:4000", 0)] } }).2 = 0 ∧
    mapGet (getCreateStats (demoEnv none)
        { demoWorld with sh := { demoWorld.sh with stats := [("10.0.0.1:4000", 0)] } }).1.sh.stats
      "w1" = some 0 :=
  have h := getCreateStats_rekey (demoEnv none)
    { demoWorld with sh := { demoWorld.sh with stats := [("10.0.0.1:4000", 0)] } } 0
    (by decide) (by decide) (by decide) (by decide)
  ⟨h.1, h.2.2.1⟩

/-! ## Formatting a hashrate -/

/-- Claim C20, evaluated on the code: for 1 500 000 GH/s, that is 1.5 PH/s,
`stringifyHashrate` picks the mantissa `750` with the unit `P` of index 5, so
`m * 1000^5` is `7.5 * 10^17` while `r * 10^9` is `1.5 * 10^15`; the text is
`750,00PH/s`. -/
theorem stringifyHashrate_petahash :
    hashrateParts exactOps (ExactFloat.fin 1500000 1) = (ExactFloat.fin 750 1, "P") ∧
    unitStrings.getD 5 "" = "P" ∧
    exactOps.mul (ExactFloat.fin 750 1) (exactOps.lit (1000 ^ 5) 1) =
      ExactFloat.fin 750000000000000000 1 ∧
    exactOps.mul (ExactFloat.fin 1500000 1) (exactOps.lit (10 ^ 9) 1) =
      ExactFloat.fin 1500000000000000 1 ∧
    stringifyHashrate exactOps (ExactFloat.fin 1500000 1) = "750,00PH/s" := by
  decide

/-! ## The rewards endpoint -/

theorem sumOutputs_lt (u : UnicodeOps) (addr : String) :
    ∀ (outputs : List (Option RPCTransactionOutput)) (state : Bool × Nat), state.2 < 2 ^ 64 →
      (sumOutputs u addr outputs state).2 < 2 ^ 64 := by
  intro outputs
  induction outputs with
  | nil => intro state h; exact h
  | cons o rest ih =>
    intro state h
    cases o with
    | none => exact ih state h
    | some o =>
      simp only [sumOutputs]
      split
      · exact ih state h
      · split_ifs
        · exact ih _ (Nat.mod_lt _ (by norm_num))
        · exact ih state h

theorem coinbaseSumToAddress_lt (u : UnicodeOps) (block : Option RewardsBlock) (addr : String) :
    (coinbaseSumToAddress u block addr).2 < 2 ^ 64 := by
  unfold coinbaseSumToAddress
  split
  · norm_num
  · split
    · norm_num
    · norm_num
    · split_ifs
      · norm_num
      · exact sumOutputs_lt _ _ _ _ (by norm_num)

theorem payRows_assigned (u : UnicodeOps) (workerFilter want : String) (portion remainder : Nat)
    (payingHash : String) (paidBlueScore : Nat) (paidAt : Int) (mined : List MinedBlue) :
    ∀ r ∈ payRows u workerFilter want portion remainder payingHash paidBlueScore paidAt mined
      true, r.RewardAtoms = portion := by
  induction mined with
  | nil => intro r hr; simp [payRows] at hr
  | cons mb rest ih =>
    intro r hr
    simp only [payRows, Bool.not_true, Bool.false_eq_true, if_false] at hr
    split_ifs at hr
    · exact ih r hr
    · rcases List.mem_cons.mp hr with h | h
      · rw [h]
      · exact ih r h

theorem payRows_first (u : UnicodeOps) (workerFilter want : String) (portion remainder : Nat)
    (payingHash : String) (paidBlueScore : Nat) (paidAt : Int) (mined : List MinedBlue) :
    match payRows u workerFilter want portion remainder payingHash paidBlueScore paidAt mined
      false with
    | [] => True
    | first :: others =>
        first.RewardAtoms = (portion + remainder) % 2 ^ 64 ∧
          ∀ r ∈ others, r.RewardAtoms = portion := by
  induction mined with
  | nil => simp [payRows]
  | cons mb rest ih =>
    simp only [payRows, Bool.not_false, if_true]
    split_ifs
    · exact ih
    · exact ⟨rfl, payRows_assigned u workerFilter want portion remainder payingHash
        paidBlueScore paidAt rest⟩

theorem payRows_all (u : UnicodeOps) (want : String) (portion remainder : Nat)
    (payingHash : String) (paidBlueScore : Nat) (paidAt : Int) (mined : List MinedBlue)
    (assigned : Bool) :
    (payRows u "" want portion remainder payingHash paidBlueScore paidAt mined assigned).length =
      mined.length ∧
    ((payRows u "" want portion remainder payingHash paidBlueScore paidAt mined assigned).map
        RewardsRow.RewardAtoms).sum =
      if assigned then mined.length * portion
      else if mined.length = 0 then 0
      else (portion + remainder) % 2 ^ 64 + (mined.length - 1) * portion := by
  induction mined generalizing assigned with
  | nil => cases assigned <;> simp [payRows]
  | cons mb rest ih =>
    have hstep : payRows u "" want portion remainder payingHash paidBlueScore paidAt
        (mb :: rest) assigned =
        { MinedBlueHash := mb.Hash, Worker := mb.Worker,
          RewardAtoms := if !assigned then (portion + remainder) % 2 ^ 64 else portion,
          PaidByBlockHash := payingHash, PaidBlueScore := paidBlueScore, PaidAtMS := paidAt } ::
          payRows u "" want portion remainder payingHash paidBlueScore paidAt rest true := by
      simp [payRows]
    obtain ⟨h1, h2⟩ := ih true
    rw [hstep]
    refine ⟨by simp [h1], ?_⟩
    simp only [List.map_cons, List.sum_cons, h2, if_true, List.length_cons]
    cases assigned
    · simp
    · simp only [Bool.not_true, Bool.false_eq_true, if_false, if_true]
      ring

/-- Claim C21: when the coinbase of a chain block pays `A > 0` atoms to the
address and the merge set yields `n ≥ 1` mined blues, `processPayingBlock`
returns rows of which the first carries `A / n + A % n` atoms and every other
one `A / n`, whatever the worker filter; with the empty filter there are
exactly `n` rows, their amounts sum to `A`, and every amount is below `2^64`,
so that no addition wrapped. -/
theorem processPayingBlock_reward_split (env : RewardsEnv) (block : RewardsBlock)
    (verbose : RPCBlockVerboseData) (addr workerFilter : String) (A : Nat)
    (hverbose : block.VerboseData = some verbose)
    (hchain : verbose.IsChainBlock = true)
    (hpaid : coinbaseSumToAddress env.unicode (some block) addr = (true, A))
    (hA : 0 < A)
    (hn : 1 ≤ (findMinedBluesFromMergeSet env verbose.MergeSetBluesHashes).length)
    (hnlt : (findMinedBluesFromMergeSet env verbose.MergeSetBluesHashes).length < 2 ^ 64) :
    ∃ rows, processPayingBlock env (some { Block := some block }) addr workerFilter =
        Except.ok rows ∧
      (match rows with
       | [] => True
       | first :: others =>
           first.RewardAtoms =
               A / (findMinedBluesFromMergeSet env verbose.MergeSetBluesHashes).length +
                 A % (findMinedBluesFromMergeSet env verbose.MergeSetBluesHashes).length ∧
             ∀ r ∈ others, r.RewardAtoms =
               A / (findMinedBluesFromMergeSet env verbose.MergeSetBluesHashes).length) ∧
      (workerFilter = "" →
        rows.length = (findMinedBluesFromMergeSet env verbose.MergeSetBluesHashes).length ∧
        (rows.map RewardsRow.RewardAtoms).sum = A ∧
        ∀ r ∈ rows, r.RewardAtoms < 2 ^ 64) := by
  have hAlt : A < 2 ^ 64 := by
    have := coinbaseSumToAddress_lt env.unicode (some block) addr
    rw [hpaid] at this
    exact this
  generalize hm : findMinedBluesFromMergeSet env verbose.MergeSetBluesHashes = mined at hn hnlt
  have hmod : mined.length % 2 ^ 64 = mined.length := Nat.mod_eq_of_lt hnlt
  have hdm := Nat.div_add_mod A mined.length
  have hle : mined.length * (A / mined.length) ≥ A / mined.length :=
    Nat.le_mul_of_pos_left _ (by omega)
  have hsum : (A / mined.length + A % mined.length) % 2 ^ 64 =
      A / mined.length + A % mined.length := Nat.mod_eq_of_lt (by omega)
  have hlen0 : ¬ mined.length = 0 := by omega
  have hA0 : ¬ A = 0 := by omega
  have hfirst := payRows_first env.unicode workerFilter
    (sanitizeWorkerIDRewards env.unicode workerFilter) (A / mined.length) (A % mined.length)
    verbose.Hash verbose.BlueScore
    (match block.HeaderTimestamp with
      | some t => t
      | none => 0) mined
  rw [hsum] at hfirst
  by_cases hf : workerFilter = ""
  · subst hf
    obtain ⟨hl, hs⟩ := payRows_all env.unicode (sanitizeWorkerIDRewards env.unicode "")
      (A / mined.length) (A % mined.length) verbose.Hash verbose.BlueScore
      (match block.HeaderTimestamp with
        | some t => t
        | none => 0) mined false
    refine ⟨_, by
      simp only [processPayingBlock, hverbose, hchain, hpaid, hm, hmod, hlen0, hA0]
      simp, hfirst, fun _ => ⟨hl, ?_, ?_⟩⟩
    · rw [hs, hsum]
      simp only [Bool.false_eq_true, if_false, hlen0]
      have key : ∀ n p : Nat, 1 ≤ n → (n - 1) * p + p = n * p := by
        intro n p h
        cases n with
        | zero => omega
        | succ k => simp [Nat.succ_mul]
      have := key mined.length (A / mined.length) hn
      omega
    · intro r hr
      revert hfirst
      cases hrows : payRows env.unicode "" (sanitizeWorkerIDRewards env.unicode "")
          (A / mined.length) (A % mined.length) verbose.Hash verbose.BlueScore
          (match block.HeaderTimestamp with
            | some t => t
            | none => 0) mined false with
      | nil => rw [hrows] at hr; simp at hr
      | cons first others =>
        intro hfirst
        rw [hrows] at hr
        rcases List.mem_cons.mp hr with h | h
        · rw [h, hfirst.1]; omega
        · rw [hfirst.2 r h]; omega
  · by_cases hempty : (payRows env.unicode workerFilter
        (sanitizeWorkerIDRewards env.unicode workerFilter) (A / mined.length) (A % mined.length)
        verbose.Hash verbose.BlueScore
        (match block.HeaderTimestamp with
          | some t => t
          | none => 0) mined false).length = 0
    · refine ⟨[], by
        simp only [processPayingBlock, hverbose, hchain, hpaid, hm, hmod, hlen0, hA0]
        simp [hf, hempty], trivial, fun h => absurd h hf⟩
    · refine ⟨_, by
        simp only [processPayingBlock, hverbose, hchain, hpaid, hm, hmod, hlen0, hA0]
        simp [hf, hempty], hfirst, fun h => absurd h hf⟩

/-- Witness of `processPayingBlock_reward_split`: ten atoms over three mined
blues give the rows 4, 3 and 3. -/
theorem processPayingBlock_reward_split_witness :
    (∃ rows, processPayingBlock demoRewardsEnv
          (some { Block := some (demoPayingBlock 10 demoBlues) }) "hoosat:qx" "" =
        Except.ok rows ∧
      (match rows with
       | [] => True
       | first :: others =>
           first.RewardAtoms = 10 / (findMinedBluesFromMergeSet demoRewardsEnv demoBlues).length +
               10 % (findMinedBluesFromMergeSet demoRewardsEnv demoBlues).length ∧
             ∀ r ∈ others, r.RewardAtoms =
               10 / (findMinedBluesFromMergeSet demoRewardsEnv demoBlues).length) ∧
      ("" = "" →
        rows.length = (findMinedBluesFromMergeSet demoRewardsEnv demoBlues).length ∧
        (rows.map RewardsRow.RewardAtoms).sum = 10 ∧
        ∀ r ∈ rows, r.RewardAtoms < 2 ^ 64)) ∧
    (processPayingBlock demoRewardsEnv
        (some { Block := some (demoPayingBlock 10 demoBlues) }) "hoosat:qx" "").map
      (fun rows => rows.map RewardsRow.RewardAtoms) = Except.ok [4, 3, 3] :=
  ⟨processPayingBlock_reward_split demoRewardsEnv (demoPayingBlock 10 demoBlues)
      { IsChainBlock := true, MergeSetBluesHashes := demoBlues, BlueScore := 72787561,
        Hash := "paying" }
      "hoosat:qx" "" 10 rfl rfl (by decide) (by decide) (by decide) (by decide), by rfl⟩

/-- Claim C22, evaluated on the code: the coinbase pays 5 atoms to
`hoosat:qx`; the query `hoosat:QX` finds them, the query `HOOSAT:Qx` does
not, because `stripHRPRewards` looks for the lower-case text before the
address is lowered, so that `hoosat:qx` is compared with `qx`. -/
theorem coinbaseSumToAddress_upper_case_hrp :
    coinbaseSumToAddress asciiUnicode (some (demoPayingBlock 5 [])) "hoosat:QX" = (true, 5) ∧
    stripHRPRewards "HOOSAT:Qx" = "HOOSAT:Qx" ∧
    stringsToLower asciiUnicode (stripHRPRewards "HOOSAT:Qx") = "hoosat:qx" ∧
    stringsToLower asciiUnicode (stripHRPRewards "hoosat:qx") = "qx" ∧
    coinbaseSumToAddress asciiUnicode (some (demoPayingBlock 5 [])) "HOOSAT:Qx" = (false, 0) := by
  decide

/-! ## The stage index of the difficulty controller -/

theorem updateVarDiff_stage {F : Type} (v : WorkStats F) (d : F) :
    stageInRange (updateVarDiff v d).1 :=
  ⟨le_refl (0 : Int), show (0 : Int) ≤ 6 by decide⟩

theorem startVarDiff_stage {F : Type} (now : Nat) (v : WorkStats F) :
    (startVarDiff now v).VarDiffWindow = v.VarDiffWindow := by
  unfold startVarDiff
  split_ifs <;> rfl

theorem vardiffWorker_stage {F : Type} (ops : FloatOps F) (expectedShareRate : Nat)
    (minutesSince : Nat → F) (v : WorkStats F) (h : stageInRange v) :
    ∃ v2, vardiffWorker ops expectedShareRate minutesSince v = some v2 ∧ stageInRange v2 := by
  obtain ⟨hlo, hhi⟩ := h
  have hneg : ¬ v.VarDiffWindow < 0 := by omega
  have hin : stageInRange v := ⟨hlo, hhi⟩
  obtain ⟨tolerance, htol⟩ := tolerances_stage ops v.VarDiffWindow.toNat (by omega)
  by_cases h6 : v.VarDiffWindow = 6
  · have hw : windows[v.VarDiffWindow.toNat]? = some 0 := by rw [h6]; rfl
    simp only [vardiffWorker, hneg, if_false, hw, htol, if_true]
    split_ifs
    · exact ⟨_, rfl, hin⟩
    · exact ⟨_, rfl, updateVarDiff_stage _ _⟩
    · exact ⟨_, rfl, hin⟩
  · obtain ⟨window, hw, hne⟩ := windows_stage v.VarDiffWindow.toNat (by omega)
    simp only [vardiffWorker, hneg, if_false, hw, htol, hne]
    split_ifs
    all_goals
      first
      | exact ⟨_, rfl, hin⟩
      | exact ⟨_, rfl, updateVarDiff_stage _ _⟩
      | (refine ⟨_, rfl, ?_, ?_⟩ <;>
          simp only [updateVarDiff, addInt64, wrapInt64] <;> omega)

theorem vardiffPassOver_stage {F : Type} (ops : FloatOps F) (expectedShareRate : Nat)
    (minutesSince : Nat → F) :
    ∀ (l : List (String × Nat)) (w : World F), (∀ e ∈ l, stageInRange (w.heap e.2)) →
      ∃ w2, vardiffPassOver ops expectedShareRate minutesSince l w = some w2 ∧
        w2.sh = w.sh ∧ ∀ q, stageInRange (w.heap q) → stageInRange (w2.heap q) := by
  intro l
  induction l with
  | nil => intro w _; exact ⟨w, rfl, rfl, fun _ h => h⟩
  | cons e rest ih =>
    intro w h
    obtain ⟨v, hv, hvin⟩ := vardiffWorker_stage ops expectedShareRate minutesSince (w.heap e.2)
      (h e (List.mem_cons_self _ _))
    have hstep : ∀ q, stageInRange (w.heap q) →
        stageInRange (heapUpdate w.heap e.2 (fun _ => v) q) := by
      intro q hq
      unfold heapUpdate
      split_ifs
      · exact hvin
      · exact hq
    obtain ⟨w2, hw2, hsh, hkeep⟩ := ih { w with heap := heapUpdate w.heap e.2 (fun _ => v) }
      (fun e2 he2 => hstep e2.2 (h e2 (List.mem_cons_of_mem _ he2)))
    exact ⟨w2, by simp only [vardiffPassOver, hv, hw2], hsh, fun q hq => hkeep q (hstep q hq)⟩

theorem mem_mapDelete (m : List (String × Nat)) (k : String) (e : String × Nat)
    (h : e ∈ mapDelete m k) : e ∈ m :=
  (List.mem_filter.mp h).1

theorem mem_of_lookup {β : Type} (m : List (String × β)) (k : String) (p : β)
    (h : m.lookup k = some p) : (k, p) ∈ m := by
  induction m with
  | nil => simp at h
  | cons e m ih =>
    obtain ⟨a, b⟩ := e
    by_cases hk : k = a
    · subst hk
      simp only [List.lookup_cons, beq_self_eq_true] at h
      cases h
      exact List.mem_cons_self _ _
    · have hb : (k == a) = false := by simpa using hk
      simp only [List.lookup_cons, hb] at h
      exact List.mem_cons_of_mem _ (ih h)

theorem getCreateStats_stage {F : Type} [Zero F] (env : Env) (w : World F)
    (h : ∀ e ∈ w.sh.stats, stageInRange (w.heap e.2)) :
    ∀ e ∈ (getCreateStats env w).1.sh.stats, stageInRange ((getCreateStats env w).1.heap e.2) := by
  have hzero : stageInRange (WorkStats.zero F) := ⟨le_refl (0 : Int), show (0 : Int) ≤ 6 by decide⟩
  simp only [getCreateStats]
  split
  · exact h
  · split
    · rename_i p hp
      split_ifs
      · intro e he
        have hname : ∀ q, stageInRange (w.heap q) →
            stageInRange (heapUpdate w.heap p
              (fun s => { s with WorkerName := w.ctx.WorkerName }) q) := by
          intro q hq
          unfold heapUpdate
          split_ifs
          · exact hq
          · exact hq
        have hpin : stageInRange (w.heap p) := by
          have hmem : (w.ctx.RemoteAddr, p) ∈ w.sh.stats := by
            have hp2 : w.sh.stats.lookup w.ctx.RemoteAddr = some p := hp
            exact mem_of_lookup _ _ _ hp2
          exact h _ hmem
        rcases List.mem_cons.mp he with h1 | h1
        · rw [h1]
          exact hname p hpin
        · exact hname e.2 (h e (mem_mapDelete _ _ _ (mem_mapDelete _ _ _ h1)))
      · exact h
    · intro e he
      rcases List.mem_cons.mp he with h1 | h1
      · rw [h1]
        simp only [heapUpdate, if_true]
        exact hzero
      · have := h e (mem_mapDelete _ _ _ h1)
        simp only [heapUpdate]
        split_ifs
        · exact hzero
        · exact this

/-- Claim C23: in a world whose stats map points to workers with a stage index
within `0..6`, one controller pass of `startVardiffThread` indexes no table out
of range and leaves every stage index within `0..6`; so do `updateVarDiff` and
`startVarDiff` on each of these workers, and `setClientVardiff` and
`startClientVardiff` on the world. -/
theorem vardiff_stage_stays_in_range {F : Type} [Zero F] (ops : FloatOps F) (env : Env)
    (expectedShareRate : Nat) (minutesSince : Nat → F) (w : World F)
    (h : ∀ e ∈ w.sh.stats, stageInRange (w.heap e.2)) :
    (∃ w2, vardiffPass ops expectedShareRate minutesSince w = some w2 ∧
      ∀ e ∈ w2.sh.stats, stageInRange (w2.heap e.2)) ∧
    (∀ e ∈ w.sh.stats, ∀ (minDiff : F) (now : Nat),
      stageInRange (updateVarDiff (w.heap e.2) minDiff).1 ∧
        stageInRange (startVarDiff now (w.heap e.2))) ∧
    (∀ minDiff : F, ∀ e ∈ (setClientVardiff ops env w minDiff).1.sh.stats,
      stageInRange ((setClientVardiff ops env w minDiff).1.heap e.2)) ∧
    (∀ e ∈ (startClientVardiff env w).sh.stats,
      stageInRange ((startClientVardiff env w).heap e.2)) := by
  have hstart : ∀ (now : Nat) (v : WorkStats F), stageInRange v →
      stageInRange (startVarDiff now v) := by
    intro now v hv
    unfold stageInRange
    rw [startVarDiff_stage]
    exact hv
  refine ⟨?_, ?_, ?_, ?_⟩
  · obtain ⟨w2, hw2, hsh, hkeep⟩ :=
      vardiffPassOver_stage ops expectedShareRate minutesSince w.sh.stats w h
    refine ⟨w2, hw2, ?_⟩
    intro e he
    rw [hsh] at he
    exact hkeep e.2 (h e he)
  · intro e he minDiff now
    exact ⟨updateVarDiff_stage _ _, hstart now _ (h e he)⟩
  · intro minDiff e he
    have hcreated := getCreateStats_stage env w h e he
    simp only [setClientVardiff, heapUpdate]
    split_ifs
    · exact hstart _ _ (updateVarDiff_stage _ _)
    · exact hcreated
  · intro e he
    have hcreated := getCreateStats_stage env w h e he
    simp only [startClientVardiff, heapUpdate]
    split_ifs
    · exact hstart _ _ hcreated
    · exact hcreated

/-- Witness of `vardiff_stage_stays_in_range`: a worker in stage 5 with 3600
shares after 240 minutes at 15 shares a minute moves to stage 6, and a worker
in stage 6 stays there. -/
theorem vardiff_stage_stays_in_range_witness :
    (∃ w2, vardiffPass exactOps 15 (demoMinutesSince 15400)
        (demoVarWorld (demoTracker 5 3600 (ExactFloat.fin 4 1))) = some w2 ∧
      ∀ e ∈ w2.sh.stats, stageInRange (w2.heap e.2)) ∧
    (vardiffPass exactOps 15 (demoMinutesSince 15400)
        (demoVarWorld (demoTracker 5 3600 (ExactFloat.fin 4 1)))).map
      (fun w2 => (w2.heap 0).VarDiffWindow) = some 6 ∧
    (vardiffPass exactOps 15 (demoMinutesSince 15400)
        (demoVarWorld (demoTracker 6 3600 (ExactFloat.fin 4 1)))).map
      (fun w2 => (w2.heap 0).VarDiffWindow) = some 6 :=
  ⟨(vardiff_stage_stays_in_range exactOps (demoEnv none) 15 (demoMinutesSince 15400)
      (demoVarWorld (demoTracker 5 3600 (ExactFloat.fin 4 1))) (by decide)).1,
    by decide, by decide⟩

/-! ## The controller fields across a submit -/

theorem VarDiffKept_refl {F : Type} [Zero F] (w : World F) : VarDiffKept w w :=
  ⟨le_refl _, fun _ _ => rfl, fun q h1 h2 => absurd h2 (by omega)⟩

theorem VarDiffKept_trans {F : Type} [Zero F] {w w2 w3 : World F}
    (h12 : VarDiffKept w w2) (h23 : VarDiffKept w2 w3) : VarDiffKept w w3 := by
  obtain ⟨a1, a2, a3⟩ := h12
  obtain ⟨b1, b2, b3⟩ := h23
  refine ⟨le_trans a1 b1, ?_, ?_⟩
  · intro q hq
    rw [b2 q (by omega), a2 q hq]
  · intro q h1 h2
    by_cases hq : q < w2.heapNext
    · rw [b2 q hq, a3 q h1 hq]
    · exact b3 q (by omega) h2

theorem VarDiffKept_step {F : Type} [Zero F] {w0 w2 : World F} (w : World F)
    (hk : VarDiffKept w0 w) (hn : w2.heapNext = w.heapNext)
    (hh : ∀ q, vardiffState (w2.heap q) = vardiffState (w.heap q)) : VarDiffKept w0 w2 :=
  VarDiffKept_trans hk ⟨le_of_eq hn.symm, fun q _ => hh q, fun q h1 h2 => absurd h2 (by omega)⟩

theorem vardiffState_heapUpdate {F : Type} (heap : Nat → WorkStats F) (p : Nat)
    (f : WorkStats F → WorkStats F) (hf : ∀ s, vardiffState (f s) = vardiffState s) (q : Nat) :
    vardiffState (heapUpdate heap p f q) = vardiffState (heap q) := by
  unfold heapUpdate
  split_ifs
  · exact hf _
  · rfl

theorem VarDiffKept_sendReply {F : Type} [Zero F] {w0 w : World F} (env : Env) (r : Reply)
    (hk : VarDiffKept w0 w) : VarDiffKept w0 (sendReply env w r).1 :=
  VarDiffKept_step w hk rfl (fun _ => rfl)

theorem VarDiffKept_logLine {F : Type} [Zero F] {w0 w : World F} (line : String)
    (hk : VarDiffKept w0 w) : VarDiffKept w0 (logLine w line) :=
  VarDiffKept_step w hk rfl (fun _ => rfl)

theorem VarDiffKept_RecordStaleShare {F : Type} [Zero F] {w0 w : World F}
    (hk : VarDiffKept w0 w) : VarDiffKept w0 (RecordStaleShare w) :=
  VarDiffKept_step w hk rfl (fun _ => rfl)

theorem VarDiffKept_RecordWorkerError {F : Type} [Zero F] {w0 w : World F}
    (kind : ErrorShortCode) (hk : VarDiffKept w0 w) :
    VarDiffKept w0 (RecordWorkerError w kind) :=
  VarDiffKept_step w hk rfl (fun _ => rfl)

theorem VarDiffKept_removeJob {F : Type} [Zero F] {w0 w : World F} (jobId : Int)
    (hk : VarDiffKept w0 w) : VarDiffKept w0 (removeJob w jobId) :=
  VarDiffKept_step w hk rfl (fun _ => rfl)

theorem VarDiffKept_metrics {F : Type} [Zero F] {w0 w : World F} (m : List Metric)
    (hk : VarDiffKept w0 w) : VarDiffKept w0 { w with metrics := m } :=
  VarDiffKept_step w hk rfl (fun _ => rfl)

theorem VarDiffKept_addStaleShare {F : Type} [Zero F] {w0 w : World F} (stats : Nat)
    (hk : VarDiffKept w0 w) : VarDiffKept w0 (addStaleShare w stats) :=
  VarDiffKept_step w hk rfl (fun q => by
    simp only [addStaleShare, heapUpdate]
    split_ifs <;> rfl)

theorem VarDiffKept_addInvalidShare {F : Type} [Zero F] {w0 w : World F} (stats : Nat)
    (hk : VarDiffKept w0 w) : VarDiffKept w0 (addInvalidShare w stats) :=
  VarDiffKept_step w hk rfl (fun q => by
    simp only [addInvalidShare, heapUpdate]
    split_ifs <;> rfl)

theorem VarDiffKept_addBlockFound {F : Type} [Zero F] {w0 w : World F} (stats : Nat)
    (hk : VarDiffKept w0 w) : VarDiffKept w0 (addBlockFound w stats) :=
  VarDiffKept_step w hk rfl (fun q => by
    simp only [addBlockFound, heapUpdate]
    split_ifs <;> rfl)

theorem VarDiffKept_recordShare {F : Type} [Add F] [Zero F] {w0 w : World F} (env : Env)
    (stats : Nat) (hk : VarDiffKept w0 w) : VarDiffKept w0 (recordShare env w stats) :=
  VarDiffKept_step w hk rfl (fun q => by
    simp only [recordShare, heapUpdate]
    split_ifs <;> rfl)

theorem VarDiffKept_checkStales {F : Type} [Zero F] {w0 w : World F} (si : SubmitInfo)
    (hk : VarDiffKept w0 w) : VarDiffKept w0 (checkStales w si).1 := by
  refine VarDiffKept_step w hk ?_ ?_
  · simp only [checkStales]
    split_ifs <;> rfl
  · intro q
    rw [(checkStales_frame w si).1]

theorem VarDiffKept_validateSubmit {F : Type} [Zero F] {w0 w : World F} (env : Env)
    (event : JsonRpcEvent) (hk : VarDiffKept w0 w) :
    VarDiffKept w0 (validateSubmit env w event).1 := by
  have h : (validateSubmit env w event).1.heap = w.heap ∧
      (validateSubmit env w event).1.heapNext = w.heapNext := by
    simp only [validateSubmit, badData]
    repeat' split
    all_goals exact ⟨rfl, rfl⟩
  exact VarDiffKept_step w hk h.2 (fun q => by rw [h.1])

theorem VarDiffKept_getCreateStats {F : Type} [Zero F] {w0 w : World F} (env : Env)
    (hk : VarDiffKept w0 w) : VarDiffKept w0 (getCreateStats env w).1 := by
  refine VarDiffKept_trans hk ?_
  simp only [getCreateStats]
  split
  · exact VarDiffKept_refl w
  · split
    · split_ifs
      · exact VarDiffKept_step w (VarDiffKept_refl w) rfl (fun q => by
          simp only [heapUpdate]
          split_ifs <;> rfl)
      · exact VarDiffKept_refl w
    · refine ⟨Nat.le_succ _, ?_, ?_⟩
      · intro q hq
        have hne : ¬ q = w.heapNext := by omega
        simp only [heapUpdate, hne, if_false]
      · intro q h1 h2
        have he : q = w.heapNext := by
          have : q < w.heapNext + 1 := h2
          omega
        simp only [heapUpdate, he, if_true]
        rfl

theorem VarDiffKept_submitted {F : Type} [Zero F] {w0 w : World F}
    (s : List (DomainBlock × String)) (hk : VarDiffKept w0 w) :
    VarDiffKept w0 { w with submitted := s } :=
  VarDiffKept_step w hk rfl (fun _ => rfl)

theorem VarDiffKept_submit {F : Type} [Zero F] {w0 w : World F} (env : Env)
    (block : DomainBlock) (si : SubmitInfo) (id : JsonValue) (hk : VarDiffKept w0 w) :
    VarDiffKept w0 (submit env w block si id).1 := by
  simp only [submit]
  split
  · split_ifs
    · exact VarDiffKept_sendReply env _ (VarDiffKept_RecordStaleShare
        (VarDiffKept_addStaleShare _ (VarDiffKept_getCreateStats env
          (VarDiffKept_logLine _ (VarDiffKept_removeJob _ (VarDiffKept_submitted _ hk))))))
    · exact VarDiffKept_sendReply env _ (VarDiffKept_metrics _
        (VarDiffKept_addInvalidShare _ (VarDiffKept_getCreateStats env
          (VarDiffKept_logLine _ (VarDiffKept_removeJob _ (VarDiffKept_submitted _ hk))))))
  · exact VarDiffKept_metrics _ (VarDiffKept_addBlockFound _
      (VarDiffKept_sendReply env _ (VarDiffKept_removeJob _
        (VarDiffKept_getCreateStats env (VarDiffKept_submitted _ hk)))))

theorem VarDiffKept_classifyShare {F : Type} [Add F] [Zero F] {w0 w : World F} (env : Env)
    (event : JsonRpcEvent) (soloMining : Bool) (si : SubmitInfo) (stats : Nat)
    (hk : VarDiffKept w0 w) :
    VarDiffKept w0 (classifyShare env w event soloMining si stats).1 := by
  simp only [classifyShare]
  split
  · exact hk
  · split_ifs
    all_goals
      first
      | exact VarDiffKept_sendReply env _ (VarDiffKept_metrics _
          (VarDiffKept_addInvalidShare _ (VarDiffKept_logLine _ hk)))
      | exact VarDiffKept_recordShare env _ hk
      | exact VarDiffKept_sendReply env _ (VarDiffKept_addInvalidShare _ hk)
      | (split
         · exact VarDiffKept_submit env _ _ _ hk
         · exact VarDiffKept_recordShare env _ (VarDiffKept_submit env _ _ _ hk))

theorem VarDiffKept_HandleSubmit {F : Type} [Add F] [Zero F] (env : Env) (w : World F)
    (event : JsonRpcEvent) (soloMining : Bool) :
    VarDiffKept w (HandleSubmit env w event soloMining).1 := by
  have hv := VarDiffKept_validateSubmit env event (VarDiffKept_refl w)
  simp only [HandleSubmit]
  split
  · exact VarDiffKept_sendReply env _ hv
  · split
    · exact VarDiffKept_RecordWorkerError _ hv
    · have hc : ∀ si : SubmitInfo,
          VarDiffKept w (checkStales (getCreateStats env (validateSubmit env w event).1).1 si).1 :=
        fun si => VarDiffKept_checkStales si (VarDiffKept_getCreateStats env hv)
      split
      · split_ifs
        · exact VarDiffKept_sendReply env _ (VarDiffKept_addInvalidShare _
            (VarDiffKept_metrics _ (VarDiffKept_removeJob _ (hc _))))
        · exact VarDiffKept_sendReply env _ (VarDiffKept_RecordStaleShare
            (VarDiffKept_addStaleShare _ (VarDiffKept_removeJob _ (hc _))))
        · exact VarDiffKept_sendReply env _ (VarDiffKept_logLine _
            (VarDiffKept_removeJob _ (hc _)))
      · exact VarDiffKept_classifyShare env _ _ _ _ (hc _)

/-- Claim C24: on every path of `HandleSubmit`, every stats object that exists
before the call, the one of the submitting worker among them, has the same
`VarDiffSharesFound`, `VarDiffWindow`, `VarDiffStartTime` and `MinDiff` after
the call; a stats object that the call creates has these four fields as in a
new `WorkStats`. -/
theorem HandleSubmit_keeps_vardiff_state {F : Type} [Add F] [Zero F] (env : Env) (w : World F)
    (event : JsonRpcEvent) (soloMining : Bool) :
    (∀ q, q < w.heapNext →
      ((HandleSubmit env w event soloMining).1.heap q).VarDiffSharesFound =
          (w.heap q).VarDiffSharesFound ∧
        ((HandleSubmit env w event soloMining).1.heap q).VarDiffWindow =
          (w.heap q).VarDiffWindow ∧
        ((HandleSubmit env w event soloMining).1.heap q).VarDiffStartTime =
          (w.heap q).VarDiffStartTime ∧
        ((HandleSubmit env w event soloMining).1.heap q).MinDiff = (w.heap q).MinDiff) ∧
    (∀ q, w.heapNext ≤ q → q < (HandleSubmit env w event soloMining).1.heapNext →
      vardiffState ((HandleSubmit env w event soloMining).1.heap q) =
        vardiffState (WorkStats.zero F)) := by
  obtain ⟨_, hsame, hnew⟩ := VarDiffKept_HandleSubmit env w event soloMining
  refine ⟨fun q hq => ?_, hnew⟩
  have h := hsame q hq
  simp only [vardiffState, Prod.mk.injEq] at h
  exact h

/-- Witness of `HandleSubmit_keeps_vardiff_state`: an accepted share of worker
`w1`, whose tracker is in stage 2 with seven shares in the window, is counted in
`SharesFound` and leaves the four controller fields as they were. -/
theorem HandleSubmit_keeps_vardiff_state_witness :
    (((HandleSubmit (demoEnv none) demoTrackedWorld (demoEvent "1" "5" demoHash5) false).1.heap
          0).VarDiffSharesFound = (demoTrackedWorld.heap 0).VarDiffSharesFound ∧
      ((HandleSubmit (demoEnv none) demoTrackedWorld (demoEvent "1" "5" demoHash5) false).1.heap
          0).VarDiffWindow = (demoTrackedWorld.heap 0).VarDiffWindow ∧
      ((HandleSubmit (demoEnv none) demoTrackedWorld (demoEvent "1" "5" demoHash5) false).1.heap
          0).VarDiffStartTime = (demoTrackedWorld.heap 0).VarDiffStartTime ∧
      ((HandleSubmit (demoEnv none) demoTrackedWorld (demoEvent "1" "5" demoHash5) false).1.heap
          0).MinDiff = (demoTrackedWorld.heap 0).MinDiff) ∧
    ((HandleSubmit (demoEnv none) demoTrackedWorld (demoEvent "1" "5" demoHash5) false).1.heap
      0).SharesFound = 1 ∧
    vardiffState
        ((HandleSubmit (demoEnv none) demoTrackedWorld (demoEvent "1" "5" demoHash5) false).1.heap
          0) = (7, 2, 1000, 4) :=
  ⟨(HandleSubmit_keeps_vardiff_state (demoEnv none) demoTrackedWorld
      (demoEvent "1" "5" demoHash5) false).1 0 (by decide), by decide, by decide⟩

end HtnBridge
